import Mathlib

/-!
Verification development for the CoALA agent core of this repository:
the four memory modules (`src/agent/memory/*.py`), the structured-response
parser and the Planning/Execution cycle controller
(`src/agent/coala_reasoning_engine.py`).

Modelling conventions (shallow embedding):
* Python values flowing through the agent (JSON/TOON records, tool results,
  model decisions) are modelled by the inductive `JValue`; Python dicts are
  association lists `Dict` with Python's insertion-order/update semantics
  (`dictSet`, `dictUpdate`).
* Python floats are modelled as exact rationals `ℚ`.
* Side effects are made explicit: wall-clock timestamps and generated uuids
  become explicit string arguments, file persistence becomes a `saved` flag,
  exceptions become `Except`/flags.
* Accessors mirror Python's `dict.get(key, default)` with the coercions used
  on the intended (well-typed) data of the data model.
-/

/-- JSON/TOON-like dynamic values: the payloads the Python agent passes
around (parsed model responses, memory records, tool results). -/
inductive JValue where
  | null : JValue
  | bool (b : Bool) : JValue
  | num (q : ℚ) : JValue
  | str (s : String) : JValue
  | arr (xs : List JValue) : JValue
  | obj (fields : List (String × JValue)) : JValue

/-- A Python dict with `String` keys, as an insertion-ordered association
list (Python 3.7+ dicts preserve insertion order). Well-formed dicts have
unique keys; `dictSet` preserves that. -/
abbrev Dict := List (String × JValue)

/-- `d.get(k)`: value of the first binding of `k`, if any. -/
def dictGet (d : Dict) (k : String) : Option JValue :=
  match d with
  | [] => none
  | (k', v) :: rest => if k' = k then some v else dictGet rest k

/-- `d.get(k, dflt)`. -/
def dictGetD (d : Dict) (k : String) (dflt : JValue) : JValue :=
  (dictGet d k).getD dflt

/-- `k in d`. -/
def hasKey (d : Dict) (k : String) : Bool :=
  (dictGet d k).isSome

/-- `d[k] = v`: replace the first binding of `k` in place (keeping its
position, as Python dicts do) or append a new binding at the end. -/
def dictSet (d : Dict) (k : String) (v : JValue) : Dict :=
  match d with
  | [] => [(k, v)]
  | (k', v') :: rest =>
    if k' = k then (k', v) :: rest else (k', v') :: dictSet rest k v

/-- `d.update(patch)`: apply the patch's bindings left to right. -/
def dictUpdate (d : Dict) (patch : Dict) : Dict :=
  match patch with
  | [] => d
  | (k, v) :: rest => dictUpdate (dictSet d k v) rest

/-- Keys of a dict, in order. -/
def dictKeys (d : Dict) : List String := d.map Prod.fst

/-- Python truthiness of a value (`if x:`). -/
def jTruthy : JValue → Bool
  | .null => false
  | .bool b => b
  | .num q => q ≠ 0
  | .str s => s ≠ ""
  | .arr xs => !xs.isEmpty
  | .obj fs => !fs.isEmpty

/-- Does this value equal (as Python `==`) the given string? Non-strings
never equal a string. -/
def jIsStr : JValue → String → Bool
  | .str s, t => s = t
  | _, _ => false

/-- String coercion used where the Python code reads a field it expects to
be a string (per the data model) and calls string methods on it. -/
def jStrD (v : Option JValue) (dflt : String) : String :=
  match v with
  | some (.str s) => s
  | _ => dflt

/-- Numeric coercion used where the Python code reads a field it expects to
be a number (per the data model) and does arithmetic on it. -/
def jNumD (v : Option JValue) (dflt : ℚ) : ℚ :=
  match v with
  | some (.num q) => q
  | _ => dflt

/-- List-of-strings coercion for fields the Python code iterates over as
string lists (tags, keywords, patterns). -/
def jStrListD (v : Option JValue) : List String :=
  match v with
  | some (.arr xs) => xs.map (fun x => jStrD (some x) "")
  | _ => []

/-- `p` is a prefix of `s` (character lists). -/
def leadsWith : List Char → List Char → Bool
  | [], _ => true
  | _ :: _, [] => false
  | p :: ps, c :: cs => p = c && leadsWith ps cs

/-- Python `pat in s` substring test on character lists. -/
def charsContain (s pat : List Char) : Bool :=
  match s with
  | [] => pat.isEmpty
  | _ :: rest => leadsWith pat s || charsContain rest pat

/-- Python substring test `pat in s`. -/
def strContains (s pat : String) : Bool :=
  charsContain s.toList pat.toList

/-- Python `str.lower()`, as a kernel-evaluable character map (ASCII
case-folding, which covers the case-bearing characters of this
repository's data; characters outside ASCII are already lowercase where
they occur). -/
def lowerStr (s : String) : String :=
  String.mk (s.toList.map Char.toLower)

-- Basic dict lemmas shared by the memory-module proofs.

theorem dictGet_dictSet_same (d : Dict) (k : String) (v : JValue) :
    dictGet (dictSet d k v) k = some v := by
  induction d with
  | nil => simp [dictSet, dictGet]
  | cons kv rest ih =>
    obtain ⟨k', v'⟩ := kv
    by_cases h : k' = k <;> simp [dictSet, dictGet, h, ih]

theorem dictGet_dictSet_other (d : Dict) (k k' : String) (v : JValue)
    (hne : k' ≠ k) : dictGet (dictSet d k v) k' = dictGet d k' := by
  induction d with
  | nil => simp [dictSet, dictGet, Ne.symm hne]
  | cons kv rest ih =>
    obtain ⟨k₀, v₀⟩ := kv
    by_cases h : k₀ = k
    · subst h
      simp [dictSet, dictGet, Ne.symm hne]
    · by_cases h2 : k₀ = k' <;> simp [dictSet, dictGet, h, h2, hne, ih]

theorem hasKey_true_memKeys (d : Dict) (k : String)
    (h : hasKey d k = true) : k ∈ dictKeys d := by
  induction d with
  | nil => simp [hasKey, dictGet] at h
  | cons kv rest ih =>
    obtain ⟨k₀, v₀⟩ := kv
    by_cases hk : k₀ = k
    · simp [dictKeys, hk]
    · simp only [hasKey, dictGet, if_neg hk] at h
      simp only [dictKeys, List.map_cons, List.mem_cons]
      exact Or.inr (ih h)

theorem dictGet_dictUpdate_missing (d : Dict) (patch : Dict) (k : String)
    (h : hasKey patch k = false) :
    dictGet (dictUpdate d patch) k = dictGet d k := by
  induction patch generalizing d with
  | nil => simp [dictUpdate]
  | cons kv rest ih =>
    obtain ⟨k₀, v₀⟩ := kv
    by_cases hk : k₀ = k
    · simp [hasKey, dictGet, hk] at h
    · simp only [hasKey, dictGet, if_neg hk] at h
      simp only [dictUpdate]
      rw [ih _ h]
      exact dictGet_dictSet_other d k₀ k v₀ (Ne.symm hk)

theorem dictGet_dictUpdate_found (d : Dict) (patch : Dict) (k : String)
    (hnodup : (dictKeys patch).Nodup) (h : hasKey patch k = true) :
    dictGet (dictUpdate d patch) k = dictGet patch k := by
  induction patch generalizing d with
  | nil => simp [hasKey, dictGet] at h
  | cons kv rest ih =>
    obtain ⟨k₀, v₀⟩ := kv
    simp only [dictKeys, List.map_cons, List.nodup_cons] at hnodup
    by_cases hk : k₀ = k
    · subst hk
      have hrest : hasKey rest k₀ = false := by
        rcases hmem : hasKey rest k₀ with _ | _
        · rfl
        · exact absurd (hasKey_true_memKeys rest k₀ hmem) hnodup.1
      simp only [dictUpdate]
      rw [dictGet_dictUpdate_missing _ _ _ hrest]
      simp [dictGet, dictGet_dictSet_same]
    · simp only [dictUpdate]
      rw [ih _ hnodup.2 (by simpa [hasKey, dictGet, hk] using h)]
      simp [dictGet, hk]

theorem hasKey_dictSet_other (d : Dict) (k k' : String) (v : JValue)
    (h : k' ≠ k) : hasKey (dictSet d k v) k' = hasKey d k' := by
  simp [hasKey, dictGet_dictSet_other d k k' v h]

/-!
## Memory modules

A memory module's in-memory collection (`self.data`) is a `List Dict`.
Timestamps and generated uuids are explicit arguments (`now`, `newId`);
`persistent` mirrors the constructor flag.
-/

/-- `BaseMemory.update` (src/agent/memory/base_memory.py, lines 72-90): scan
for the first record whose `'id'` field equals `entry_id`; merge `updates`
into it with `dict.update`, then stamp `'updated_at'` with the current time.
Returns the new collection and the success flag. -/
def baseMemoryUpdate (data : List Dict) (entryId : String) (updates : Dict)
    (now : String) : List Dict × Bool :=
  match data with
  | [] => ([], false)
  | e :: rest =>
    if jIsStr (dictGetD e "id" .null) entryId then
      (dictSet (dictUpdate e updates) "updated_at" (.str now) :: rest, true)
    else
      let r := baseMemoryUpdate rest entryId updates now
      (e :: r.1, r.2)

/-- Result of a memory-module `store` call: the resulting collection, the
value returned (`Except` models the raised `ValueError`), and whether
`save()` — the synchronous persistence write — was reached. -/
structure StoreOutcome where
  data : List Dict
  ret : Except String JValue
  saved : Bool

/-- `BaseMemory._add_timestamp`: set `created_at` and `updated_at` to the
current time. -/
def addTimestamp (entry : Dict) (now : String) : Dict :=
  dictSet (dictSet entry "created_at" (.str now)) "updated_at" (.str now)

/-- `EpisodicMemory.store` (src/agent/memory/episodic_memory.py, lines
37-68): timestamp, assign an id if absent, validate that `'task'` is
present (raising `ValueError` otherwise), append, persist. -/
def episodicStore (data : List Dict) (entry : Dict) (now newId : String)
    (persistent : Bool) : StoreOutcome :=
  let e1 := addTimestamp entry now
  let e2 := if hasKey e1 "id" then e1 else dictSet e1 "id" (.str ("episodic_" ++ newId))
  if !hasKey e2 "task" then
    { data := data, ret := .error "Episode must include 'task' field", saved := false }
  else
    { data := data ++ [e2], ret := .ok (dictGetD e2 "id" .null), saved := persistent }

/-- `SemanticMemory.store` (src/agent/memory/semantic_memory.py, lines
85-117): timestamp, assign an id if absent, validate `'concept'` and
`'content'`, default `'tags'` to `[]`, append, persist. -/
def semanticStore (data : List Dict) (entry : Dict) (now newId : String)
    (persistent : Bool) : StoreOutcome :=
  let e1 := addTimestamp entry now
  let e2 := if hasKey e1 "id" then e1 else dictSet e1 "id" (.str ("semantic_" ++ newId))
  if !hasKey e2 "concept" || !hasKey e2 "content" then
    { data := data, ret := .error "Semantic entry must include 'concept' and 'content' fields",
      saved := false }
  else
    let e3 := if hasKey e2 "tags" then e2 else dictSet e2 "tags" (.arr [])
    { data := data ++ [e3], ret := .ok (dictGetD e3 "id" .null), saved := persistent }

/-- `ProceduralMemory.store` (src/agent/memory/procedural_memory.py, lines
84-119): timestamp, assign an id if absent, validate `'procedure_type'` and
`'name'`, default `'success_rate'` to 0.5 and `'usage_count'` to 0, append,
persist. -/
def proceduralStore (data : List Dict) (entry : Dict) (now newId : String)
    (persistent : Bool) : StoreOutcome :=
  let e1 := addTimestamp entry now
  let e2 := if hasKey e1 "id" then e1 else dictSet e1 "id" (.str ("procedural_" ++ newId))
  if !hasKey e2 "procedure_type" || !hasKey e2 "name" then
    { data := data, ret := .error "Procedural entry must include 'procedure_type' and 'name' fields",
      saved := false }
  else
    let e3 := if hasKey e2 "success_rate" then e2 else dictSet e2 "success_rate" (.num (1/2))
    let e4 := if hasKey e3 "usage_count" then e3 else dictSet e3 "usage_count" (.num 0)
    { data := data ++ [e4], ret := .ok (dictGetD e4 "id" .null), saved := persistent }

/-- `ProceduralMemory.update_success_rate` (src/agent/memory/
procedural_memory.py, lines 199-223): on the first record whose `'id'`
matches, replace `success_rate` by the exponential moving average
`alpha * (1.0 if success else 0.0) + (1 - alpha) * current` with
`alpha = 0.2`. -/
def updateSuccessRate (data : List Dict) (entryId : String) (success : Bool) :
    List Dict × Bool :=
  match data with
  | [] => ([], false)
  | p :: rest =>
    if jIsStr (dictGetD p "id" .null) entryId then
      let current := jNumD (dictGet p "success_rate") (1/2)
      let newRate := (1/5) * (if success then (1 : ℚ) else 0) + (1 - 1/5) * current
      (dictSet p "success_rate" (.num newRate) :: rest, true)
    else
      let r := updateSuccessRate rest entryId success
      (p :: r.1, r.2)

/-- The `success_rate` (with the code's 0.5 fallback) of the first record
whose `'id'` matches, if any. -/
def findRate (data : List Dict) (entryId : String) : Option ℚ :=
  match data with
  | [] => none
  | p :: rest =>
    if jIsStr (dictGetD p "id" .null) entryId then
      some (jNumD (dictGet p "success_rate") (1/2))
    else findRate rest entryId

/-- N repeated `update_success_rate(id, success=True)` calls. -/
def iterateSuccess (data : List Dict) (entryId : String) : Nat → List Dict
  | 0 => data
  | n + 1 => (updateSuccessRate (iterateSuccess data entryId n) entryId true).1

/-!
## C4 — `update(id, patch)` and the record identifier

`BaseMemory.update` runs `entry.update(updates)` before re-stamping
`updated_at`, so a patch that itself contains an `'id'` binding overwrites
the record's identifier.
-/

/-- C4 counterexample: on a store holding one record with id `"a"`, calling
`update("a", {'id': 'b'})` yields a record whose identifier is `"b"`, not
`"a"` — refuting "update never changes the identifier, for any patch". -/
theorem baseMemoryUpdate_id_change_counterexample :
    (baseMemoryUpdate [[("id", JValue.str "a")]] "a" [("id", JValue.str "b")] "t1").1 =
      [[("id", JValue.str "b"), ("updated_at", JValue.str "t1")]] ∧
    dictGet ((baseMemoryUpdate [[("id", JValue.str "a")]] "a"
        [("id", JValue.str "b")] "t1").1.headI) "id" ≠ some (JValue.str "a") := by
  refine ⟨rfl, ?_⟩
  intro h
  have h2 : some (JValue.str "b") = some (JValue.str "a") := h
  injection h2 with h3
  injection h3 with h4
  exact absurd h4 (by decide)

/-- C4 (amended): provided the patch does not itself bind `'id'` (patches
are Python dicts, so their keys are unique), `update(id, patch)` leaves
every record's identifier unchanged; every record is either untouched, or
is the first match, in which case the patch's fields are merged into it and
its `updated_at` timestamp is refreshed to the current time. -/
theorem baseMemoryUpdate_merges_and_preserves_id
    (data : List Dict) (entryId : String) (updates : Dict) (now : String)
    (hid : hasKey updates "id" = false)
    (hnodup : (dictKeys updates).Nodup) :
    List.Forall₂ (fun e e' =>
      dictGet e' "id" = dictGet e "id" ∧
      (e' = e ∨
        (dictGet e' "updated_at" = some (JValue.str now) ∧
         ∀ k, k ≠ "updated_at" → hasKey updates k = true →
           dictGet e' k = dictGet updates k)))
      data (baseMemoryUpdate data entryId updates now).1 := by
  induction data with
  | nil => exact List.Forall₂.nil
  | cons e rest ih =>
    by_cases h : jIsStr (dictGetD e "id" .null) entryId = true
    · simp only [baseMemoryUpdate, if_pos h]
      refine List.Forall₂.cons ⟨?_, Or.inr ⟨?_, ?_⟩⟩ ?_
      · rw [dictGet_dictSet_other _ _ _ _ (by decide)]
        exact dictGet_dictUpdate_missing e updates "id" hid
      · exact dictGet_dictSet_same _ _ _
      · intro k hk hkey
        rw [dictGet_dictSet_other _ _ _ _ hk]
        exact dictGet_dictUpdate_found e updates k hnodup hkey
      · exact List.forall₂_same.mpr (fun x _ => ⟨rfl, Or.inl rfl⟩)
    · simp only [baseMemoryUpdate, if_neg h]
      exact List.Forall₂.cons ⟨rfl, Or.inl rfl⟩ ih

/-- Witness for the amended C4 theorem at a concrete store and patch. -/
theorem baseMemoryUpdate_merges_witness :
    List.Forall₂ (fun e e' =>
      dictGet e' "id" = dictGet e "id" ∧
      (e' = e ∨
        (dictGet e' "updated_at" = some (JValue.str "t2") ∧
         ∀ k, k ≠ "updated_at" → hasKey [("x", JValue.num 2)] k = true →
           dictGet e' k = dictGet [("x", JValue.num 2)] k)))
      [[("id", JValue.str "a"), ("x", JValue.num 1)]]
      (baseMemoryUpdate [[("id", JValue.str "a"), ("x", JValue.num 1)]] "a"
        [("x", JValue.num 2)] "t2").1 :=
  baseMemoryUpdate_merges_and_preserves_id
    [[("id", JValue.str "a"), ("x", JValue.num 1)]] "a"
    [("x", JValue.num 2)] "t2" (by rfl) (by simp [dictKeys])

/-!
## C10 — store validation precedes the append

In all three long-term modules the `ValueError` for a missing required
field is raised before `self.data.append(entry)` and before `self.save()`,
so the collection is unchanged and nothing is persisted.
-/

/-- C10: for each long-term module, storing an entry that misses a required
field (`'task'` for Episodic; `'concept'` or `'content'` for Semantic;
`'procedure_type'` or `'name'` for Procedural) returns the validation
error, leaves the stored collection unchanged, and never reaches the
persistence write. -/
theorem store_validation_precedes_append :
    (∀ (data : List Dict) (entry : Dict) (now newId : String) (p : Bool),
       hasKey entry "task" = false →
       (episodicStore data entry now newId p).data = data ∧
       (episodicStore data entry now newId p).ret =
         .error "Episode must include 'task' field" ∧
       (episodicStore data entry now newId p).saved = false) ∧
    (∀ (data : List Dict) (entry : Dict) (now newId : String) (p : Bool),
       hasKey entry "concept" = false ∨ hasKey entry "content" = false →
       (semanticStore data entry now newId p).data = data ∧
       (semanticStore data entry now newId p).ret =
         .error "Semantic entry must include 'concept' and 'content' fields" ∧
       (semanticStore data entry now newId p).saved = false) ∧
    (∀ (data : List Dict) (entry : Dict) (now newId : String) (p : Bool),
       hasKey entry "procedure_type" = false ∨ hasKey entry "name" = false →
       (proceduralStore data entry now newId p).data = data ∧
       (proceduralStore data entry now newId p).ret =
         .error "Procedural entry must include 'procedure_type' and 'name' fields" ∧
       (proceduralStore data entry now newId p).saved = false) := by
  have hts : ∀ (entry : Dict) (now : String) (k : String), k ≠ "created_at" →
      k ≠ "updated_at" → hasKey (addTimestamp entry now) k = hasKey entry k := by
    intro entry now k h1 h2
    unfold addTimestamp
    rw [hasKey_dictSet_other _ _ _ _ h2, hasKey_dictSet_other _ _ _ _ h1]
  have hid : ∀ (d : Dict) (pre newId : String) (k : String), k ≠ "id" →
      hasKey (if hasKey d "id" then d else dictSet d "id" (.str (pre ++ newId))) k
        = hasKey d k := by
    intro d pre newId k hk
    by_cases h : hasKey d "id" = true
    · simp [h]
    · simp only [Bool.not_eq_true] at h
      simp [h, hasKey_dictSet_other _ _ _ _ hk]
  refine ⟨?_, ?_, ?_⟩
  · intro data entry now newId p h
    have hmiss : hasKey (if hasKey (addTimestamp entry now) "id" then addTimestamp entry now
        else dictSet (addTimestamp entry now) "id" (.str ("episodic_" ++ newId))) "task" = false := by
      rw [hid _ "episodic_" newId "task" (by decide), hts entry now "task" (by decide) (by decide)]
      exact h
    simp only [episodicStore]
    rw [hmiss]
    exact ⟨rfl, rfl, rfl⟩
  · intro data entry now newId p h
    have hmiss : (!hasKey (if hasKey (addTimestamp entry now) "id" then addTimestamp entry now
        else dictSet (addTimestamp entry now) "id" (.str ("semantic_" ++ newId))) "concept" ||
        !hasKey (if hasKey (addTimestamp entry now) "id" then addTimestamp entry now
        else dictSet (addTimestamp entry now) "id" (.str ("semantic_" ++ newId))) "content") = true := by
      rw [hid _ "semantic_" newId "concept" (by decide), hts entry now "concept" (by decide) (by decide),
        hid _ "semantic_" newId "content" (by decide), hts entry now "content" (by decide) (by decide)]
      rcases h with h | h <;> simp [h]
    simp only [semanticStore]
    rw [hmiss]
    exact ⟨rfl, rfl, rfl⟩
  · intro data entry now newId p h
    have hmiss : (!hasKey (if hasKey (addTimestamp entry now) "id" then addTimestamp entry now
        else dictSet (addTimestamp entry now) "id" (.str ("procedural_" ++ newId))) "procedure_type" ||
        !hasKey (if hasKey (addTimestamp entry now) "id" then addTimestamp entry now
        else dictSet (addTimestamp entry now) "id" (.str ("procedural_" ++ newId))) "name") = true := by
      rw [hid _ "procedural_" newId "procedure_type" (by decide),
        hts entry now "procedure_type" (by decide) (by decide),
        hid _ "procedural_" newId "name" (by decide), hts entry now "name" (by decide) (by decide)]
      rcases h with h | h <;> simp [h]
    simp only [proceduralStore]
    rw [hmiss]
    exact ⟨rfl, rfl, rfl⟩

/-- Witness for C10 at concrete invalid entries for all three modules. -/
theorem store_validation_witness :
    (episodicStore [] [("outcome", JValue.str "done")] "t0" "u0" true).data = [] ∧
    (semanticStore [] [("concept", JValue.str "c")] "t0" "u1" true).data = [] ∧
    (proceduralStore [] [("name", JValue.str "n")] "t0" "u2" true).saved = false :=
  ⟨(store_validation_precedes_append.1 [] [("outcome", JValue.str "done")] "t0" "u0" true (by rfl)).1,
   (store_validation_precedes_append.2.1 [] [("concept", JValue.str "c")] "t0" "u1" true
     (Or.inr (by rfl))).1,
   (store_validation_precedes_append.2.2 [] [("name", JValue.str "n")] "t0" "u2" true
     (Or.inl (by rfl))).2.2⟩

/-!
## C5 — exponential-moving-average success rate

`update_success_rate` applies `new = 0.2·success + 0.8·old`. The seeded
default procedures start at `success_rate = 1.0`, and `0.2·1 + 0.8·1 = 1`,
so a stored procedure's rate can equal 1.0 after finitely many successful
updates — the "never reaches or exceeds 1.0" half of the claim fails on the
defaults. For any record with rate strictly below 1 the claimed monotone
approach to 1 does hold.
-/

/-- The default procedures seeded by
`ProceduralMemory._initialize_default_procedures` (procedural_memory.py,
lines 37-82), as the dict literals passed to `store`. -/
def defaultProcedures : List Dict :=
  [[("procedure_type", .str "tool_sequence"), ("name", .str "region_to_detection"),
    ("description", .str "Standard workflow: Map region first, then detect objects"),
    ("pattern", .arr [.str "region_mapper", .str "object_detector"]),
    ("context", .str "When task involves detecting objects in a named region"),
    ("success_rate", .num 1), ("usage_count", .num 0),
    ("examples", .arr [.str "Detect vehicles in München", .str "Find ships near Starnberger See"])],
   [("procedure_type", .str "tool_sequence"), ("name", .str "image_to_detection"),
    ("description", .str "Process image before running detection"),
    ("pattern", .arr [.str "image_processor", .str "object_detector"]),
    ("context", .str "When working with raw satellite imagery"),
    ("success_rate", .num 1), ("usage_count", .num 0),
    ("examples", .arr [.str "Analyze raw satellite image", .str "Process and detect objects"])],
   [("procedure_type", .str "strategy"), ("name", .str "region_expansion"),
    ("description", .str "For large regions like Bayern, use moderate bbox expansion (0.3-0.5)"),
    ("pattern", .obj [("tool", .str "region_mapper"), ("parameter", .str "expand_bbox"),
      ("value_range", .arr [.num (3/10), .num (1/2)])]),
    ("context", .str "Querying large geographic areas"),
    ("success_rate", .num 1), ("usage_count", .num 0)],
   [("procedure_type", .str "prompt_template"), ("name", .str "region_query_extraction"),
    ("description", .str "Effective prompt for extracting region names from user queries"),
    ("template", .str "Extract the geographic location from: {query}. Return region name or null if not found."),
    ("context", .str "When user query mentions a location"),
    ("success_rate", .num 1), ("usage_count", .num 0)]]

/-- Seeding an empty procedural store with the defaults (each `store` call
gets a timestamp and a fresh uuid suffix). -/
def seedDefaultProcedures (now : String) (ids : List String) : List Dict :=
  ((defaultProcedures.zip ids).foldl
    (fun d pi => (proceduralStore d pi.1 now pi.2 true).data) [])

/-- One `update_success_rate` call rewrites the first matching record's
rate by the alpha = 0.2 moving average and leaves its identity findable. -/
theorem findRate_updateSuccessRate (data : List Dict) (entryId : String) (s : Bool) :
    findRate (updateSuccessRate data entryId s).1 entryId =
      (findRate data entryId).map
        (fun r => 1/5 * (if s then (1 : ℚ) else 0) + (1 - 1/5) * r) := by
  induction data with
  | nil => simp [updateSuccessRate, findRate]
  | cons p rest ih =>
    by_cases h : jIsStr (dictGetD p "id" .null) entryId = true
    · have hidkeep : dictGetD (dictSet p "success_rate"
          (.num (1/5 * (if s then (1:ℚ) else 0) + (1 - 1/5) * jNumD (dictGet p "success_rate") (1/2))))
          "id" .null = dictGetD p "id" .null := by
        unfold dictGetD
        rw [dictGet_dictSet_other _ _ _ _ (by decide)]
      simp only [updateSuccessRate, if_pos h, findRate, hidkeep, h, if_pos]
      simp [jNumD, dictGet_dictSet_same]
    · simp only [updateSuccessRate, if_neg h, findRate]
      exact ih

/-- Closed form after N successful updates: `1 - 0.8^N · (1 - r₀)`. -/
theorem findRate_iterateSuccess (data : List Dict) (entryId : String) (r : ℚ)
    (hfind : findRate data entryId = some r) (N : Nat) :
    findRate (iterateSuccess data entryId N) entryId =
      some (1 - (4/5)^N * (1 - r)) := by
  induction N with
  | zero => simpa [iterateSuccess] using hfind
  | succ n ihn =>
    simp only [iterateSuccess]
    rw [findRate_updateSuccessRate, ihn, Option.map_some']
    congr 1
    rw [if_pos rfl]
    ring

/-- C5 counterexample: seed the defaults; the seeded `region_to_detection`
procedure has `success_rate = 1.0`, and one successful update leaves it at
exactly `1.0` — so "repeated `update_success_rate(id, success=True)` ...
never reaches or exceeds 1.0 for finite N" fails for this stored
procedure (its rate is ≥ 1 after N = 1 updates). -/
theorem updateSuccessRate_reaches_one_counterexample :
    findRate (seedDefaultProcedures "t0" ["u0", "u1", "u2", "u3"]) "procedural_u0" = some 1 ∧
    findRate (iterateSuccess (seedDefaultProcedures "t0" ["u0", "u1", "u2", "u3"])
        "procedural_u0" 1) "procedural_u0" = some 1 ∧
    ¬ (1 : ℚ) < 1 := by
  refine ⟨by rfl, ?_, by norm_num⟩
  rw [findRate_iterateSuccess _ _ 1 (by rfl) 1]
  norm_num

/-- C5 (amended): `update_success_rate(id, success)` replaces the first
matching record's rate by `0.2·(1.0 if success else 0.0) + 0.8·old`; and
for a stored procedure whose current rate is strictly below 1.0, N repeated
successful updates give exactly `1 - 0.8^N·(1 - old)`, which increases
strictly monotonically with N and stays strictly below 1.0 for every finite
N. (Seeded default procedures start at exactly 1.0 and stay there.) -/
theorem updateSuccessRate_ema_monotone (data : List Dict) (entryId : String)
    (s : Bool) (r : ℚ) (hfind : findRate data entryId = some r) :
    findRate (updateSuccessRate data entryId s).1 entryId =
      some (1/5 * (if s then (1 : ℚ) else 0) + (1 - 1/5) * r) ∧
    (r < 1 → ∀ N : Nat,
      findRate (iterateSuccess data entryId N) entryId =
        some (1 - (4/5)^N * (1 - r)) ∧
      1 - (4/5)^N * (1 - r) < 1 - (4/5)^(N+1) * (1 - r) ∧
      1 - (4/5)^N * (1 - r) < 1) := by
  refine ⟨by rw [findRate_updateSuccessRate, hfind]; rfl, ?_⟩
  intro hr N
  refine ⟨findRate_iterateSuccess data entryId r hfind N, ?_, ?_⟩
  · have hpos : (0 : ℚ) < 1 - r := by linarith
    have hpow : ((4:ℚ)/5)^(N+1) < (4/5)^N := by
      have h45 : (0 : ℚ) < 4/5 := by norm_num
      exact pow_lt_pow_right_of_lt_one₀ h45 (by norm_num : (4:ℚ)/5 < 1)
        (Nat.lt_succ_self N)
    nlinarith
  · have hpos : (0 : ℚ) < 1 - r := by linarith
    have hpow : (0 : ℚ) < (4/5)^N := pow_pos (by norm_num) N
    nlinarith

/-- Witness for the amended C5 theorem: a procedure stored without an
explicit rate defaults to 0.5; after 2 successful updates its rate is
`1 - 0.8² · 0.5 = 0.68 < 1`. -/
theorem updateSuccessRate_ema_witness :
    findRate (iterateSuccess
        (proceduralStore [] [("procedure_type", JValue.str "strategy"),
          ("name", JValue.str "w")] "t0" "w0" true).data "procedural_w0" 2) "procedural_w0" =
      some (1 - (4/5)^2 * (1 - 1/2)) ∧
    (1 : ℚ) - (4/5)^2 * (1 - 1/2) < 1 :=
  ⟨((updateSuccessRate_ema_monotone
      (proceduralStore [] [("procedure_type", JValue.str "strategy"),
        ("name", JValue.str "w")] "t0" "w0" true).data "procedural_w0" true (1/2)
      (by rfl)).2 (by norm_num) 2).1,
   ((updateSuccessRate_ema_monotone
      (proceduralStore [] [("procedure_type", JValue.str "strategy"),
        ("name", JValue.str "w")] "t0" "w0" true).data "procedural_w0" true (1/2)
      (by rfl)).2 (by norm_num) 2).2.2⟩

/-!
## Retrieval: scored candidates and the stable descending sort

The Python retrieval methods wrap candidates as
`{'episode'/'fact'/'procedure': record, 'relevance_score': score}`, call the
stable `list.sort(key=..., reverse=True)`, truncate and project. `Scored`
models the wrapper; `sortScoredDesc` is a stable insertion sort producing
the same (unique) stable score-descending ordering.
-/

/-- A scored retrieval candidate. -/
structure Scored where
  entry : Dict
  score : ℚ

/-- Stable insert into a score-descending list: earlier elements with a
strictly greater score stay in front; ties keep the original order. -/
def insertScoredDesc (x : Scored) : List Scored → List Scored
  | [] => [x]
  | y :: ys => if x.score < y.score then y :: insertScoredDesc x ys else x :: y :: ys

/-- Stable score-descending sort (Python `sort(key=score, reverse=True)`). -/
def sortScoredDesc : List Scored → List Scored
  | [] => []
  | x :: xs => insertScoredDesc x (sortScoredDesc xs)

theorem insertScoredDesc_perm (x : Scored) (l : List Scored) :
    List.Perm (insertScoredDesc x l) (x :: l) := by
  induction l with
  | nil => simp [insertScoredDesc]
  | cons y ys ih =>
    by_cases h : x.score < y.score
    · simp only [insertScoredDesc, if_pos h]
      exact (ih.cons y).trans (List.Perm.swap x y ys)
    · simp [insertScoredDesc, if_neg h]

theorem sortScoredDesc_perm (l : List Scored) : List.Perm (sortScoredDesc l) l := by
  induction l with
  | nil => simp [sortScoredDesc]
  | cons x xs ih =>
    exact (insertScoredDesc_perm x (sortScoredDesc xs)).trans (ih.cons x)

theorem insertScoredDesc_pairwise (x : Scored) (l : List Scored)
    (h : l.Pairwise (fun a b => b.score ≤ a.score)) :
    (insertScoredDesc x l).Pairwise (fun a b => b.score ≤ a.score) := by
  induction l with
  | nil => simp [insertScoredDesc]
  | cons y ys ih =>
    rcases List.pairwise_cons.mp h with ⟨hy, hys⟩
    by_cases hxy : x.score < y.score
    · simp only [insertScoredDesc, if_pos hxy]
      refine List.pairwise_cons.mpr ⟨?_, ih hys⟩
      intro z hz
      rcases List.mem_cons.mp ((insertScoredDesc_perm x ys).mem_iff.mp hz) with hz | hz
      · exact hz ▸ le_of_lt hxy
      · exact hy z hz
    · simp only [insertScoredDesc, if_neg hxy]
      push_neg at hxy
      refine List.pairwise_cons.mpr ⟨?_, h⟩
      intro z hz
      rcases List.mem_cons.mp hz with hz | hz
      · exact hz ▸ hxy
      · exact le_trans (hy z hz) hxy

theorem sortScoredDesc_pairwise (l : List Scored) :
    (sortScoredDesc l).Pairwise (fun a b => b.score ≤ a.score) := by
  induction l with
  | nil => simp [sortScoredDesc]
  | cons x xs ih => exact insertScoredDesc_pairwise x _ ih

/-- A stable sort leaves a constant-score list unchanged (this is what makes
an "all scores 0" retrieval keep its scan order). -/
theorem sortScoredDesc_const_score (l : List Scored) (s : ℚ)
    (h : ∀ x ∈ l, x.score = s) : sortScoredDesc l = l := by
  induction l with
  | nil => rfl
  | cons x xs ih =>
    have hx : x.score = s := h x (by simp)
    have hxs : ∀ y ∈ xs, y.score = s := fun y hy => h y (by simp [hy])
    simp only [sortScoredDesc, ih hxs]
    cases xs with
    | nil => rfl
    | cons y ys =>
      have hy : y.score = s := hxs y (by simp)
      simp [insertScoredDesc, hx, hy]

/-!
## Episodic Memory retrieval (episodic_memory.py, lines 70-125)
-/

/-- The query dict of `EpisodicMemory.retrieve`, with the code's
`query.get(..., default)` defaults. -/
structure EpisodicQuery where
  taskKeywords : List String := []
  toolsUsed : List String := []
  minConfidence : ℚ := 0

/-- The per-episode tool-name list: `episode.get('actions', [])`, kept only
when it is a list, each dict element contributing
`action.get('tool', action.get('action', ''))`. -/
def episodeToolNames (e : Dict) : List JValue :=
  match dictGet e "actions" with
  | some (.arr xs) =>
    xs.filterMap (fun a =>
      match a with
      | .obj fs => some (dictGetD fs "tool" (dictGetD fs "action" (.str "")))
      | _ => none)
  | _ => []

/-- Episodic relevance: +1 per keyword substring-matched in the lowered
task text, +2 per queried tool present among the episode's action names. -/
def episodicScore (q : EpisodicQuery) (e : Dict) : ℚ :=
  let task := lowerStr (jStrD (dictGet e "task") "")
  let kwScore := (q.taskKeywords.filter (fun k => strContains task (lowerStr k))).length
  let names := episodeToolNames e
  let toolScore := (q.toolsUsed.filter (fun t => names.any (fun n => jIsStr n t))).length
  (kwScore : ℚ) + 2 * toolScore

/-- The accumulation loop of `EpisodicMemory.retrieve`, already walking the
newest-first (`reversed`) list. `remaining` is how many more candidates may
be accumulated before the `len(results) >= limit` break fires (the code
appends first and then breaks, so even `limit = 0` accumulates one
candidate before the final truncation discards it). -/
def episodicScan (q : EpisodicQuery) (remaining : Nat) : List Dict → List Scored
  | [] => []
  | e :: rest =>
    if 0 < q.minConfidence ∧ jNumD (dictGet e "confidence") 0 < q.minConfidence then
      episodicScan q remaining rest
    else
      let s := episodicScore q e
      if 0 < s ∨ (q.taskKeywords = [] ∧ q.toolsUsed = []) then
        if remaining ≤ 1 then [⟨e, s⟩]
        else ⟨e, s⟩ :: episodicScan q (remaining - 1) rest
      else episodicScan q remaining rest

/-- `EpisodicMemory.retrieve`: bounded newest-first scan, then stable sort
by score descending, truncate to `limit`, project the episodes. -/
def episodicRetrieve (data : List Dict) (q : EpisodicQuery) (limit : Nat) :
    List Dict :=
  ((sortScoredDesc (episodicScan q limit data.reverse)).take limit).map (·.entry)

theorem episodicScan_empty_query (l : List Dict) (r : Nat) :
    episodicScan {} r l = (l.take (max 1 r)).map (fun e => ⟨e, 0⟩) := by
  induction l generalizing r with
  | nil => simp [episodicScan]
  | cons e rest ih =>
    have hscore : episodicScore {} e = 0 := by
      simp [episodicScore, List.filter_nil]
    by_cases hr : r ≤ 1
    · have hmax : max 1 r = 1 := by omega
      simp [episodicScan, hscore, hr, hmax]
    · have hmax : max 1 r = r := by omega
      have hmax' : max 1 (r - 1) = r - 1 := by omega
      have htake : r = (r - 1) + 1 := by omega
      simp only [episodicScan, hscore, hr, hmax, ih]
      norm_num
      rw [hmax']
      conv_rhs => rw [htake, List.take_succ_cons]

/-- C8 (confirmed): for every episodic store and every limit, `retrieve`
with an empty query (no `task_keywords`, no `tools_used`, no
`min_confidence`) returns the newest `limit` episodes, most recent first:
all scores are 0, so the bounded scan takes the first `limit` elements of
the reversed store and the stable sort keeps their order. -/
theorem episodicRetrieve_empty_query_newest_first (data : List Dict) (limit : Nat) :
    episodicRetrieve data {} limit = data.reverse.take limit := by
  unfold episodicRetrieve
  rw [episodicScan_empty_query]
  rw [sortScoredDesc_const_score _ 0 (by
    intro x hx
    rcases List.mem_map.mp hx with ⟨e, _, he⟩
    simp [← he])]
  rw [← List.map_take, List.take_take]
  have hmin : min limit (max 1 limit) = limit := by omega
  rw [hmin, List.map_map]
  have hcomp : ((fun x : Scored => x.entry) ∘ fun e => (⟨e, 0⟩ : Scored)) = id := rfl
  rw [hcomp, List.map_id]

/-!
## Semantic Memory retrieval (semantic_memory.py, lines 119-174)
-/

/-- The query dict of `SemanticMemory.retrieve`, with the code's defaults. -/
structure SemanticQuery where
  concept : String := ""
  entity : String := ""
  tags : List String := []
  factType : String := ""
  keywords : List String := []

/-- Semantic relevance: 3 per concept exact match, 3 per entity exact
match, 1 per fact_type exact match, 2 per intersecting tag, 1 per keyword
substring in the content (all comparisons on lowered strings; the code
lowers the query parts once before the loop, which is equivalent to
lowering them here). -/
def semanticScore (q : SemanticQuery) (f : Dict) : ℚ :=
  let concept := lowerStr q.concept
  let entity := lowerStr q.entity
  let factType := lowerStr q.factType
  let tags := q.tags.map lowerStr
  let keywords := q.keywords.map lowerStr
  let s1 : ℚ := if concept ≠ "" ∧ concept = lowerStr (jStrD (dictGet f "concept") "") then 3 else 0
  let s2 : ℚ := if entity ≠ "" ∧ entity = lowerStr (jStrD (dictGet f "entity") "") then 3 else 0
  let s3 : ℚ := if factType ≠ "" ∧ factType = lowerStr (jStrD (dictGet f "fact_type") "") then 1 else 0
  let factTags := (jStrListD (dictGet f "tags")).map lowerStr
  let s4 : ℚ := 2 * ((tags.filter (fun t => factTags.contains t)).length : ℚ)
  let content := lowerStr (jStrD (dictGet f "content") "")
  let s5 : ℚ := ((keywords.filter (fun k => strContains content k)).length : ℚ)
  s1 + s2 + s3 + s4 + s5

/-- The code's zero-score inclusion test
`not concept and not entity and not tags and not keywords` — note that
`fact_type` is absent from it (lowering a string does not change whether it
is empty, so the original query parts are tested). -/
def semanticQueryOpen (q : SemanticQuery) : Bool :=
  q.concept = "" && q.entity = "" && q.tags.isEmpty && q.keywords.isEmpty

/-- `SemanticMemory.retrieve`: full scan, keep facts with positive score
(or every fact when the inclusion test holds), stable sort by score
descending, truncate, project. -/
def semanticScan (data : List Dict) (q : SemanticQuery) : List Scored :=
  data.filterMap (fun f =>
    if 0 < semanticScore q f ∨ semanticQueryOpen q = true then
      some ⟨f, semanticScore q f⟩
    else none)

def semanticRetrieve (data : List Dict) (q : SemanticQuery) (limit : Nat) :
    List Dict :=
  ((sortScoredDesc (semanticScan data q)).take limit).map (·.entry)

/-- The fact used in the C6 counterexample. -/
def c6Fact : Dict := [("concept", JValue.str "c"), ("content", JValue.str "z")]

/-- The query used in the C6 counterexample: it supplies only `fact_type`,
so it is not fully empty in the claim's sense. -/
def c6Query : SemanticQuery := { factType := "x" }

/-- C6 counterexample: a query supplying only a (non-matching) `fact_type`
is not fully empty, the stored fact scores 0 against it, yet `retrieve`
still returns the fact — because the code's zero-score inclusion test omits
`fact_type`. This refutes "that fact appears in the result only when the
query is fully empty (supplies no concept, no entity, no tags, no
fact_type, and no keywords)" and "for any non-empty query only
positive-score facts are returned". -/
theorem semanticRetrieve_factType_counterexample :
    semanticScore c6Query c6Fact = 0 ∧
    c6Query.factType ≠ "" ∧
    semanticRetrieve [c6Fact] c6Query 5 = [c6Fact] := by
  refine ⟨by with_unfolding_all rfl, by decide, by with_unfolding_all rfl⟩

theorem semanticScan_mem (data : List Dict) (q : SemanticQuery) (x : Scored)
    (hx : x ∈ semanticScan data q) :
    x.score = semanticScore q x.entry ∧
      (0 < x.score ∨ semanticQueryOpen q = true) := by
  unfold semanticScan at hx
  rcases List.mem_filterMap.mp hx with ⟨f, _, hgf⟩
  by_cases hcond : 0 < semanticScore q f ∨ semanticQueryOpen q = true
  · rw [if_pos hcond] at hgf
    cases hgf
    exact ⟨rfl, hcond⟩
  · rw [if_neg hcond] at hgf
    cases hgf

/-- C6 (amended): zero-score facts are included exactly when the query
supplies none of concept, entity, tags and keywords — `fact_type` is
ignored by the code's emptiness test. When at least one of those four is
supplied, only positive-score facts are returned, sorted by score
descending and truncated to `limit`; when none is supplied, every stored
fact is a candidate (zero scores included) and the result is the truncation
of the full sorted store. -/
theorem semanticRetrieve_zero_score_amended (data : List Dict)
    (q : SemanticQuery) (limit : Nat) :
    ((q.concept ≠ "" ∨ q.entity ≠ "" ∨ q.tags ≠ [] ∨ q.keywords ≠ []) →
      (∀ f ∈ semanticRetrieve data q limit, 0 < semanticScore q f) ∧
      (semanticRetrieve data q limit).Pairwise
        (fun a b => semanticScore q b ≤ semanticScore q a) ∧
      (semanticRetrieve data q limit).length ≤ limit) ∧
    ((q.concept = "" ∧ q.entity = "" ∧ q.tags = [] ∧ q.keywords = []) →
      (semanticRetrieve data q limit).length = min limit data.length) := by
  constructor
  · intro hq
    have hopen : semanticQueryOpen q = false := by
      unfold semanticQueryOpen
      rcases hq with h | h | h | h <;> simp [h, List.isEmpty_iff]
    refine ⟨?_, ?_, ?_⟩
    · intro f hf
      rcases List.mem_map.mp hf with ⟨x, hx_take, hx_entry⟩
      have hx_scan : x ∈ semanticScan data q :=
        (sortScoredDesc_perm _).mem_iff.mp (List.mem_of_mem_take hx_take)
      rcases semanticScan_mem data q x hx_scan with ⟨hsc, hpos | hopen'⟩
      · rw [← hx_entry, ← hsc]
        exact hpos
      · rw [hopen] at hopen'
        cases hopen'
    · unfold semanticRetrieve
      rw [List.pairwise_map]
      have hp := (sortScoredDesc_pairwise (semanticScan data q)).sublist
        (List.take_sublist limit _)
      refine hp.imp_of_mem ?_
      intro a b ha hb hab
      have ha' := (semanticScan_mem data q a
        ((sortScoredDesc_perm _).mem_iff.mp (List.mem_of_mem_take ha))).1
      have hb' := (semanticScan_mem data q b
        ((sortScoredDesc_perm _).mem_iff.mp (List.mem_of_mem_take hb))).1
      rw [← ha', ← hb']
      exact hab
    · unfold semanticRetrieve
      rw [List.length_map, List.length_take]
      exact min_le_left _ _
  · rintro ⟨h1, h2, h3, h4⟩
    have hopen : semanticQueryOpen q = true := by
      simp [semanticQueryOpen, h1, h2, h3, h4]
    have hscan : semanticScan data q = data.map (fun f => ⟨f, semanticScore q f⟩) := by
      unfold semanticScan
      induction data with
      | nil => rfl
      | cons f fs ih =>
        rw [List.filterMap_cons, List.map_cons, if_pos (Or.inr hopen), ih]
    unfold semanticRetrieve
    rw [List.length_map, List.length_take, (sortScoredDesc_perm _).length_eq,
      hscan, List.length_map]

/-- Witness for the amended C6 theorem: both implications discharged at
concrete queries (one supplying a concept, one fully empty). -/
theorem semanticRetrieve_zero_score_witness :
    (semanticRetrieve [[("concept", JValue.str "region"), ("content", JValue.str "x")]]
        { concept := "region" } 5).length ≤ 5 ∧
    (semanticRetrieve [[("concept", JValue.str "region"), ("content", JValue.str "x")]]
        {} 3).length = min 3 1 :=
  ⟨((semanticRetrieve_zero_score_amended
      [[("concept", JValue.str "region"), ("content", JValue.str "x")]]
      { concept := "region" } 5).1 (Or.inl (by decide))).2.2,
   (semanticRetrieve_zero_score_amended
      [[("concept", JValue.str "region"), ("content", JValue.str "x")]]
      {} 3).2 ⟨rfl, rfl, rfl, rfl⟩⟩

/-!
## Structured-response parsing

`CoALAReasoningEngine._parse_data` strips a `<think>...</think>` segment,
then tries: a fenced TOON-ish block, a fenced `{...}` block as strict JSON
(falling back to the TOON decoder), the first inline `{...}` (depth ≤ 2, as
the regex `\x7b[^\x7b\x7d]*(?:\x7b[^\x7b\x7d]*\x7d[^\x7b\x7d]*)*\x7d`
matches), and a bare `ident[...]` literal. The external TOON decoder
(`ToonFormatter.loads` wraps an optional third-party library; the spec
scopes the serialization syntax out) is a parameter `toonLoads` returning a
parsed dict or failing. Strict JSON is modelled by `jsonLoads` below
(`json.loads`' NaN/Infinity extension has no exact rational value and is
outside the model; no input of this development uses it).
-/

/-- JSON whitespace (RFC 8259): space, tab, line feed, carriage return. -/
def isJsonWs (c : Char) : Bool :=
  c = ' ' || c = '\t' || c = '\n' || c = '\r'

/-- Skip leading JSON whitespace. -/
def skipWs : List Char → List Char
  | [] => []
  | c :: cs => if isJsonWs c then skipWs cs else c :: cs

/-- Consume a run of decimal digits, accumulating their value and count. -/
def digitsAcc (acc : Nat) (count : Nat) : List Char → Nat × Nat × List Char
  | [] => (acc, count, [])
  | c :: cs =>
    if c.isDigit then digitsAcc (acc * 10 + (c.toNat - 48)) (count + 1) cs
    else (acc, count, c :: cs)

/-- Strict JSON number: `-? (0 | [1-9][0-9]*) (\.[0-9]+)? ([eE][+-]?[0-9]+)?`,
as an exact rational. -/
def parseJsonNumber (cs : List Char) : Option (ℚ × List Char) :=
  let (neg, cs1) : Bool × List Char :=
    match cs with
    | '-' :: rest => (true, rest)
    | _ => (false, cs)
  match cs1 with
  | [] => none
  | c :: tail =>
    if !c.isDigit then none
    else if c = '0' && (match tail with | d :: _ => d.isDigit | [] => false) then none
    else
      let (ip, _, cs2) := digitsAcc 0 0 cs1
      let (fp, fl, cs3) : Nat × Nat × List Char :=
        match cs2 with
        | '.' :: f :: fr =>
          if f.isDigit then digitsAcc 0 0 (f :: fr) else (0, 0, cs2)
        | _ => (0, 0, cs2)
      let fracBad : Bool :=
        match cs2 with
        | '.' :: f :: _ => !f.isDigit
        | ['.'] => true
        | _ => false
      if fracBad then none
      else
        let (expOk, eneg, ev, cs4) : Bool × Bool × Nat × List Char :=
          match cs3 with
          | e :: er =>
            if e = 'e' || e = 'E' then
              let (es, er2) : Bool × List Char :=
                match er with
                | '+' :: r => (false, r)
                | '-' :: r => (true, r)
                | _ => (false, er)
              match er2 with
              | d :: _ =>
                if d.isDigit then
                  let (evv, _, er3) := digitsAcc 0 0 er2
                  (true, es, evv, er3)
                else (false, false, 0, cs3)
              | [] => (false, false, 0, cs3)
            else (true, false, 0, cs3)
          | [] => (true, false, 0, cs3)
        if !expOk then none
        else
          let base : ℚ := (ip : ℚ) + (fp : ℚ) / (10 : ℚ)^fl
          let scaled : ℚ := if eneg then base / (10 : ℚ)^ev else base * (10 : ℚ)^ev
          some ((if neg then -scaled else scaled), cs4)

/-- Hex digit value, if any. -/
def hexVal (c : Char) : Option Nat :=
  if c.isDigit then some (c.toNat - 48)
  else if 'a' ≤ c ∧ c ≤ 'f' then some (c.toNat - 87)
  else if 'A' ≤ c ∧ c ≤ 'F' then some (c.toNat - 55)
  else none

/-- Four hex digits. -/
def hex4 : List Char → Option (Nat × List Char)
  | a :: b :: c :: d :: rest =>
    match hexVal a, hexVal b, hexVal c, hexVal d with
    | some x, some y, some z, some w => some (((x * 16 + y) * 16 + z) * 16 + w, rest)
    | _, _, _, _ => none
  | _ => none

/-- Strict JSON string body (after the opening quote): escapes
`\" \\ \/ \b \f \n \r \t \uXXXX` (surrogate pairs combined; a code point
Lean cannot represent maps to the default character), unescaped control
characters rejected (`json.loads` strict mode). -/
def parseJsonStringBody : Nat → List Char → Option (List Char × List Char)
  | 0, _ => none
  | _, [] => none
  | _ + 1, '"' :: rest => some ([], rest)
  | fuel + 1, '\\' :: 'u' :: a :: b :: c :: d :: rest =>
    match hexVal a, hexVal b, hexVal c, hexVal d with
    | some x, some y, some z, some w =>
      let n := ((x * 16 + y) * 16 + z) * 16 + w
      if 0xD800 ≤ n ∧ n ≤ 0xDBFF then
        match rest with
        | '\\' :: 'u' :: a2 :: b2 :: c2 :: d2 :: rest2 =>
          match hexVal a2, hexVal b2, hexVal c2, hexVal d2 with
          | some x2, some y2, some z2, some w2 =>
            let m := ((x2 * 16 + y2) * 16 + z2) * 16 + w2
            if 0xDC00 ≤ m ∧ m ≤ 0xDFFF then
              (parseJsonStringBody fuel rest2).map
                (fun p => (Char.ofNat (0x10000 + (n - 0xD800) * 0x400 + (m - 0xDC00)) :: p.1, p.2))
            else (parseJsonStringBody fuel rest).map (fun p => (Char.ofNat n :: p.1, p.2))
          | _, _, _, _ => (parseJsonStringBody fuel rest).map (fun p => (Char.ofNat n :: p.1, p.2))
        | _ => (parseJsonStringBody fuel rest).map (fun p => (Char.ofNat n :: p.1, p.2))
      else (parseJsonStringBody fuel rest).map (fun p => (Char.ofNat n :: p.1, p.2))
    | _, _, _, _ => none
  | fuel + 1, '\\' :: e :: rest =>
    let simple : Option Char :=
      if e = '"' then some '"'
      else if e = '\\' then some '\\'
      else if e = '/' then some '/'
      else if e = 'b' then some '\x08'
      else if e = 'f' then some '\x0c'
      else if e = 'n' then some '\n'
      else if e = 'r' then some '\r'
      else if e = 't' then some '\t'
      else none
    match simple with
    | some c => (parseJsonStringBody fuel rest).map (fun p => (c :: p.1, p.2))
    | none => none
  | fuel + 1, c :: rest =>
    if c.toNat < 0x20 then none
    else (parseJsonStringBody fuel rest).map (fun p => (c :: p.1, p.2))

mutual

/-- Strict JSON value (fuel-bounded recursive descent; the fuel is sized by
the caller so that it never runs out on its input). -/
def parseJsonValue : Nat → List Char → Option (JValue × List Char)
  | 0, _ => none
  | fuel + 1, cs =>
    match skipWs cs with
    | [] => none
    | c :: rest =>
      if c = 'n' then
        if leadsWith "ull".toList rest then some (.null, rest.drop 3) else none
      else if c = 't' then
        if leadsWith "rue".toList rest then some (.bool true, rest.drop 3) else none
      else if c = 'f' then
        if leadsWith "alse".toList rest then some (.bool false, rest.drop 4) else none
      else if c = '"' then
        (parseJsonStringBody (rest.length + 1) rest).map
          (fun p => (.str (String.mk p.1), p.2))
      else if c = '[' then
        match skipWs rest with
        | ']' :: rest2 => some (.arr [], rest2)
        | _ => (parseJsonArrayItems fuel rest).map (fun p => (.arr p.1, p.2))
      else if c = '{' then
        match skipWs rest with
        | '}' :: rest2 => some (.obj [], rest2)
        | _ => (parseJsonObjItems fuel [] rest).map (fun p => (.obj p.1, p.2))
      else
        (parseJsonNumber (c :: rest)).map (fun p => (.num p.1, p.2))

/-- One-or-more comma-separated array items, then `]`. -/
def parseJsonArrayItems : Nat → List Char → Option (List JValue × List Char)
  | 0, _ => none
  | fuel + 1, cs =>
    match parseJsonValue fuel cs with
    | none => none
    | some (v, rest) =>
      match skipWs rest with
      | ',' :: rest2 =>
        (parseJsonArrayItems fuel rest2).map (fun p => (v :: p.1, p.2))
      | ']' :: rest2 => some ([v], rest2)
      | _ => none

/-- One-or-more `"key": value` members, then `}`; duplicate keys keep the
first position with the last value, as Python dicts do. -/
def parseJsonObjItems : Nat → Dict → List Char → Option (Dict × List Char)
  | 0, _, _ => none
  | fuel + 1, acc, cs =>
    match skipWs cs with
    | '"' :: rest =>
      match parseJsonStringBody (rest.length + 1) rest with
      | none => none
      | some (key, rest2) =>
        match skipWs rest2 with
        | ':' :: rest3 =>
          match parseJsonValue fuel rest3 with
          | none => none
          | some (v, rest4) =>
            let acc2 := dictSet acc (String.mk key) v
            match skipWs rest4 with
            | ',' :: rest5 => parseJsonObjItems fuel acc2 rest5
            | '}' :: rest5 => some (acc2, rest5)
            | _ => none
        | _ => none
    | _ => none

end

/-- `json.loads`: a single JSON value with nothing but whitespace after it. -/
def jsonLoads (s : String) : Option JValue :=
  match parseJsonValue (s.toList.length + 1) s.toList with
  | some (v, rest) => if (skipWs rest).isEmpty then some v else none
  | none => none

/-- Index of the first occurrence of `pat` in `s`, if any. -/
def findSub (s pat : List Char) : Option Nat :=
  match s with
  | [] => if pat.isEmpty then some 0 else none
  | _ :: rest =>
    if leadsWith pat s then some 0 else (findSub rest pat).map (· + 1)

/-- `re.sub(r'<think>.*?</think>', '', text, flags=re.DOTALL)`: repeatedly
drop the span from the leftmost `<think>` to the first `</think>` after it;
if no closer follows the leftmost opener, no later opener has one either,
so substitution stops. -/
def stripThinkChars : Nat → List Char → List Char
  | 0, cs => cs
  | fuel + 1, cs =>
    match findSub cs "<think>".toList with
    | none => cs
    | some i =>
      let afterOpen := cs.drop (i + 7)
      match findSub afterOpen "</think>".toList with
      | none => cs
      | some j => cs.take i ++ stripThinkChars fuel (afterOpen.drop (j + 8))

/-- The think-segment strip applied by `_parse_data` before any extraction. -/
def stripThink (s : String) : String :=
  String.mk (stripThinkChars s.toList.length s.toList)

/-- Regex `\s` (ASCII coverage): space, tab, newline, carriage return,
form feed, vertical tab. -/
def isReWs (c : Char) : Bool :=
  c = ' ' || c = '\t' || c = '\n' || c = '\r' || c = '\x0c' || c = '\x0b'

/-- Regex `[a-zA-Z_]`. -/
def isIdentStart (c : Char) : Bool :=
  c.isAlpha || c = '_'

/-- Regex `[a-zA-Z0-9_]`. -/
def isIdentChar (c : Char) : Bool :=
  c.isAlphanum || c = '_'

/-- After a candidate lazy-group close position: `\s*` then a closing
triple backtick. -/
def fenceTailOk (cs : List Char) : Bool :=
  leadsWith "```".toList (cs.dropWhile isReWs)

/-- Lazy scan for the group-closing character `close` whose tail satisfies
`fenceTailOk` (the shortest such span, as `.*?` matches): returns the
content before `close` and the remainder after it. -/
def lazyCloseFenced (close : Char) : List Char → Option (List Char)
  | [] => none
  | c :: rest =>
    if c = close && fenceTailOk rest then some []
    else (lazyCloseFenced close rest).map (c :: ·)

/-- The group of the fenced-TOON regex after the opening fence and optional
`toon` tag: `\s*` then `ident\[.*?\]` whose tail closes the fence. -/
def toonGroupAfterFence (cs : List Char) : Option (List Char) :=
  let cs1 := cs.dropWhile isReWs
  match cs1 with
  | c :: _ =>
    if isIdentStart c then
      let identRun := cs1.takeWhile isIdentChar
      match cs1.dropWhile isIdentChar with
      | '[' :: r2 =>
        (lazyCloseFenced ']' r2).map (fun content => identRun ++ '[' :: content ++ [']'])
      | _ => none
    else none
  | [] => none

/-- Leftmost match of ```` ```(?:toon)?\s*([a-zA-Z_][a-zA-Z0-9_]*\[.*?\])\s*``` ````
(DOTALL), returning the captured group. The optional `toon` tag is
preferred (greedy `?`), with fallback to not consuming it. -/
def searchToonBlock : List Char → Option (List Char)
  | [] => none
  | c :: rest =>
    let cs := c :: rest
    if leadsWith "```".toList cs then
      let afterFence := cs.drop 3
      let attempt : Option (List Char) :=
        if leadsWith "toon".toList afterFence then
          match toonGroupAfterFence (afterFence.drop 4) with
          | some g => some g
          | none => toonGroupAfterFence afterFence
        else toonGroupAfterFence afterFence
      match attempt with
      | some g => some g
      | none => searchToonBlock rest
    else searchToonBlock rest

/-- The group of the fenced-JSON regex after the opening fence and optional
`json` tag: `\s*` then `\{.*?\}` whose tail closes the fence. -/
def jsonGroupAfterFence (cs : List Char) : Option (List Char) :=
  match cs.dropWhile isReWs with
  | '{' :: r2 =>
    (lazyCloseFenced '}' r2).map (fun content => '{' :: content ++ ['}'])
  | _ => none

/-- Leftmost match of ```` ```(?:json)?\s*(\{.*?\})\s*``` ```` (DOTALL),
returning the captured group. -/
def searchJsonBlock : List Char → Option (List Char)
  | [] => none
  | c :: rest =>
    let cs := c :: rest
    if leadsWith "```".toList cs then
      let afterFence := cs.drop 3
      let attempt : Option (List Char) :=
        if leadsWith "json".toList afterFence then
          match jsonGroupAfterFence (afterFence.drop 4) with
          | some g => some g
          | none => jsonGroupAfterFence afterFence
        else jsonGroupAfterFence afterFence
      match attempt with
      | some g => some g
      | none => searchJsonBlock rest
    else searchJsonBlock rest

/-- Matcher for the inline-object regex after an opening brace: a body of
brace-free runs and complete depth-one `{...}` pairs, then the closing
brace. `mode` is the current depth (1 or 2); a `{` at depth 2 or the end of
input means the pattern cannot match at this start (the regex has no other
way to parse the body, so there is nothing to backtrack into). -/
def braceSpan (mode : Nat) : List Char → Option (List Char)
  | [] => none
  | c :: cs =>
    if mode = 1 then
      if c = '}' then some ['}']
      else if c = '{' then (braceSpan 2 cs).map ('{' :: ·)
      else (braceSpan 1 cs).map (c :: ·)
    else
      if c = '}' then (braceSpan 1 cs).map ('}' :: ·)
      else if c = '{' then none
      else (braceSpan 2 cs).map (c :: ·)

/-- Leftmost match of the inline-object regex
`\x7b[^\x7b\x7d]*(?:\x7b[^\x7b\x7d]*\x7d[^\x7b\x7d]*)*\x7d` (DOTALL). -/
def findInlineObj : List Char → Option (List Char)
  | [] => none
  | c :: rest =>
    if c = '{' then
      match braceSpan 1 rest with
      | some span => some ('{' :: span)
      | none => findInlineObj rest
    else findInlineObj rest

/-- Content before the first occurrence of `close`, if any. -/
def firstClose (close : Char) : List Char → Option (List Char)
  | [] => none
  | c :: rest =>
    if c = close then some []
    else (firstClose close rest).map (c :: ·)

/-- Leftmost match of the bare-TOON regex `([a-zA-Z_][a-zA-Z0-9_]*\[.*?\])`
(DOTALL): an identifier, `[`, the shortest body to the next `]`. -/
def searchBareToon : List Char → Option (List Char)
  | [] => none
  | c :: rest =>
    let cs := c :: rest
    if isIdentStart c then
      let identRun := cs.takeWhile isIdentChar
      match cs.dropWhile isIdentChar with
      | '[' :: r2 =>
        match firstClose ']' r2 with
        | some content => some (identRun ++ '[' :: content ++ [']'])
        | none => searchBareToon rest
      | _ => searchBareToon rest
    else searchBareToon rest

/-- A JSON parse of a regex-extracted `{...}` group, kept only when it
yields an object (which is the only shape `json.loads` can give such a
group). -/
def jsonLoadsObj (s : String) : Option Dict :=
  match jsonLoads s with
  | some (.obj fs) => some fs
  | _ => none

/-- `CoALAReasoningEngine._parse_data` (coala_reasoning_engine.py, lines
539-586): strip the thinking segment, then in order try the fenced TOON
block, the fenced JSON block (strict JSON first, TOON decoder on failure),
the first inline object (strict JSON first, TOON decoder on failure), and
a bare TOON array literal; the first successful decode wins, otherwise the
error sentinel carrying the raw text. `toonLoads` is the external
`ToonFormatter.loads` capability (a parsed dict, or `none` for any
decoding exception). -/
def parseData (toonLoads : String → Option Dict) (text : String) : Dict :=
  let clean := (stripThink text).toList
  let step1 : Option Dict :=
    match searchToonBlock clean with
    | some g => toonLoads (String.mk g)
    | none => none
  match step1 with
  | some d => d
  | none =>
    let step2 : Option Dict :=
      match searchJsonBlock clean with
      | some g =>
        match jsonLoadsObj (String.mk g) with
        | some d => some d
        | none => toonLoads (String.mk g)
      | none => none
    match step2 with
    | some d => d
    | none =>
      let step3 : Option Dict :=
        match findInlineObj clean with
        | some g =>
          match jsonLoadsObj (String.mk g) with
          | some d => some d
          | none => toonLoads (String.mk g)
        | none => none
      match step3 with
      | some d => d
      | none =>
        let step4 : Option Dict :=
          match searchBareToon clean with
          | some g => toonLoads (String.mk g)
          | none => none
        match step4 with
        | some d => d
        | none =>
          [("error", .str "Could not parse JSON or TOON"), ("raw_text", .str text)]

/-- One audit record per retry request issued by `_parse_data_with_retry`:
the cumulative attempt number, which model capability served it, and its
response's parse result. -/
structure RetryRecord where
  attempt : Nat
  usedGeneral : Bool
  parsed : Dict

/-- The retry loop of `_parse_data_with_retry`: up to `remaining` further
requests; a request whose cumulative attempt number (`totalAttempts +
attempt + 1`) has reached 3 goes to the general model, else to the primary
`llm` argument. Model responses are streams consumed by call index; the
returned counters make the consumption explicit, and the audit log records
each request. -/
def retryLoop (toonLoads : String → Option Dict) (primary general : Nat → String)
    (totalAttempts : Nat) :
    Nat → Nat → Nat → Nat → Dict → Dict × Nat × Nat × List RetryRecord
  | rIdx, gIdx, _, 0, lastResult => (lastResult, rIdx, gIdx, [])
  | rIdx, gIdx, attempt, rem + 1, _ =>
    let current := totalAttempts + attempt + 1
    let useGeneral := decide (3 ≤ current)
    let resp := if useGeneral then general gIdx else primary rIdx
    let rIdx' := if useGeneral then rIdx else rIdx + 1
    let gIdx' := if useGeneral then gIdx + 1 else gIdx
    let parsed := parseData toonLoads resp
    let rec0 : RetryRecord := ⟨current, useGeneral, parsed⟩
    if hasKey parsed "error" then
      let r := retryLoop toonLoads primary general totalAttempts rIdx' gIdx'
        (attempt + 1) rem parsed
      (r.1, r.2.1, r.2.2.1, rec0 :: r.2.2.2)
    else (parsed, rIdx', gIdx', [rec0])

/-- `CoALAReasoningEngine._parse_data_with_retry` (lines 588-621): re-parse
the text; on failure run the retry loop. -/
def parseDataWithRetry (toonLoads : String → Option Dict)
    (primary general : Nat → String) (text : String)
    (maxRetries totalAttempts rIdx gIdx : Nat) :
    Dict × Nat × Nat × List RetryRecord :=
  let first := parseData toonLoads text
  if hasKey first "error" then
    retryLoop toonLoads primary general totalAttempts rIdx gIdx 0 maxRetries first
  else (first, rIdx, gIdx, [])

theorem retryLoop_log_length (tl : String → Option Dict) (p g : Nat → String)
    (ta : Nat) : ∀ (rem attempt rIdx gIdx : Nat) (last : Dict),
    (retryLoop tl p g ta rIdx gIdx attempt rem last).2.2.2.length ≤ rem := by
  intro rem
  induction rem with
  | zero => intro attempt rIdx gIdx last; simp [retryLoop]
  | succ n ih =>
    intro attempt rIdx gIdx last
    simp only [retryLoop]
    by_cases herr : hasKey (parseData tl
        (if decide (3 ≤ ta + attempt + 1) = true then g gIdx
         else p rIdx)) "error" = true
    · rw [if_pos herr]
      exact Nat.succ_le_succ (ih _ _ _ _)
    · rw [if_neg herr]
      simp

theorem retryLoop_log_attempts (tl : String → Option Dict) (p g : Nat → String)
    (ta : Nat) : ∀ (rem attempt rIdx gIdx : Nat) (last : Dict),
    (retryLoop tl p g ta rIdx gIdx attempt rem last).2.2.2.map (·.attempt) =
      List.range' (ta + attempt + 1)
        (retryLoop tl p g ta rIdx gIdx attempt rem last).2.2.2.length := by
  intro rem
  induction rem with
  | zero => intro attempt rIdx gIdx last; simp [retryLoop]
  | succ n ih =>
    intro attempt rIdx gIdx last
    simp only [retryLoop]
    by_cases herr : hasKey (parseData tl
        (if decide (3 ≤ ta + attempt + 1) = true then g gIdx
         else p rIdx)) "error" = true
    · rw [if_pos herr]
      simp only [List.map_cons, List.length_cons, List.range'_succ]
      refine congrArg (List.cons (ta + attempt + 1)) ?_
      rw [ih]
      have harith : ta + (attempt + 1) + 1 = ta + attempt + 1 + 1 := by omega
      rw [harith]
    · rw [if_neg herr]
      simp

theorem retryLoop_log_escalation (tl : String → Option Dict) (p g : Nat → String)
    (ta : Nat) : ∀ (rem attempt rIdx gIdx : Nat) (last : Dict),
    ∀ r ∈ (retryLoop tl p g ta rIdx gIdx attempt rem last).2.2.2,
      r.usedGeneral = decide (3 ≤ r.attempt) := by
  intro rem
  induction rem with
  | zero => intro attempt rIdx gIdx last r hr; simp [retryLoop] at hr
  | succ n ih =>
    intro attempt rIdx gIdx last r hr
    simp only [retryLoop] at hr
    by_cases herr : hasKey (parseData tl
        (if decide (3 ≤ ta + attempt + 1) = true then g gIdx
         else p rIdx)) "error" = true
    · rw [if_pos herr] at hr
      rcases List.mem_cons.mp hr with hr | hr
      · subst hr; rfl
      · exact ih _ _ _ _ r hr
    · rw [if_neg herr] at hr
      rcases List.mem_cons.mp hr with hr | hr
      · subst hr; rfl
      · simp at hr

theorem retryLoop_returns_last (tl : String → Option Dict) (p g : Nat → String)
    (ta : Nat) : ∀ (rem attempt rIdx gIdx : Nat) (last : Dict),
    (retryLoop tl p g ta rIdx gIdx attempt rem last).1 =
      (((retryLoop tl p g ta rIdx gIdx attempt rem last).2.2.2.getLast?).map
        (·.parsed)).getD last := by
  intro rem
  induction rem with
  | zero => intro attempt rIdx gIdx last; simp [retryLoop]
  | succ n ih =>
    intro attempt rIdx gIdx last
    simp only [retryLoop]
    by_cases herr : hasKey (parseData tl
        (if decide (3 ≤ ta + attempt + 1) = true then g gIdx
         else p rIdx)) "error" = true
    · rw [if_pos herr]
      simp only
      rw [ih]
      rcases hlog : (retryLoop tl p g ta
          (if decide (3 ≤ ta + attempt + 1) = true then rIdx else rIdx + 1)
          (if decide (3 ≤ ta + attempt + 1) = true then gIdx + 1 else gIdx)
          (attempt + 1) n
          (parseData tl (if decide (3 ≤ ta + attempt + 1) = true then g gIdx
            else p rIdx))).2.2.2 with _ | ⟨x, xs⟩
      · simp
      · rcases h2 : (x :: xs).getLast? with _ | y
        · exact absurd h2 (by simp)
        · simp [h2]
    · rw [if_neg herr]
      simp

/-- C7 (confirmed): starting from an unparseable model text (cumulative
attempt count 1 for the caller's initial parse, as both call sites pass),
`_parse_data_with_retry` issues at most `max_retries` additional model
requests, numbered cumulatively 2, 3, ...; every retry request whose
cumulative attempt count has reached 3 goes to the secondary/general model
instead of the primary reasoning model; and the returned dict is the result
of the last parse attempt performed — which may still be the error
sentinel. -/
theorem parseDataWithRetry_escalation_policy (toonLoads : String → Option Dict)
    (primary general : Nat → String) (text : String)
    (maxRetries rIdx gIdx : Nat)
    (hbad : hasKey (parseData toonLoads text) "error" = true) :
    (parseDataWithRetry toonLoads primary general text
        maxRetries 1 rIdx gIdx).2.2.2.length ≤ maxRetries ∧
    (parseDataWithRetry toonLoads primary general text
        maxRetries 1 rIdx gIdx).2.2.2.map (·.attempt) =
      List.range' 2 (parseDataWithRetry toonLoads primary general text
        maxRetries 1 rIdx gIdx).2.2.2.length ∧
    (∀ r ∈ (parseDataWithRetry toonLoads primary general text
        maxRetries 1 rIdx gIdx).2.2.2,
      r.usedGeneral = decide (3 ≤ r.attempt)) ∧
    (parseDataWithRetry toonLoads primary general text maxRetries 1 rIdx gIdx).1 =
      (((parseDataWithRetry toonLoads primary general text
          maxRetries 1 rIdx gIdx).2.2.2.getLast?).map (·.parsed)).getD
        (parseData toonLoads text) := by
  unfold parseDataWithRetry
  rw [if_pos hbad]
  exact ⟨retryLoop_log_length toonLoads primary general 1 maxRetries 0 rIdx gIdx _,
    retryLoop_log_attempts toonLoads primary general 1 maxRetries 0 rIdx gIdx _,
    retryLoop_log_escalation toonLoads primary general 1 maxRetries 0 rIdx gIdx _,
    retryLoop_returns_last toonLoads primary general 1 maxRetries 0 rIdx gIdx _⟩

/-- Witness for the C7 theorem: with every response unparseable and the
default `max_retries = 2`, the retries are attempts 2 (primary) and
3 (general), and the error sentinel is returned. -/
theorem parseDataWithRetry_escalation_witness :
    (parseDataWithRetry (fun _ => none) (fun _ => "x") (fun _ => "x") "x"
        2 1 0 0).2.2.2.length ≤ 2 ∧
    (parseDataWithRetry (fun _ => none) (fun _ => "x") (fun _ => "x") "x"
        2 1 0 0).2.2.2.map (·.attempt) =
      List.range' 2 (parseDataWithRetry (fun _ => none) (fun _ => "x")
        (fun _ => "x") "x" 2 1 0 0).2.2.2.length ∧
    (∀ r ∈ (parseDataWithRetry (fun _ => none) (fun _ => "x") (fun _ => "x")
        "x" 2 1 0 0).2.2.2,
      r.usedGeneral = decide (3 ≤ r.attempt)) ∧
    (parseDataWithRetry (fun _ => none) (fun _ => "x") (fun _ => "x") "x"
        2 1 0 0).1 =
      (((parseDataWithRetry (fun _ => none) (fun _ => "x") (fun _ => "x") "x"
          2 1 0 0).2.2.2.getLast?).map (·.parsed)).getD
        (parseData (fun _ => none) "x") :=
  parseDataWithRetry_escalation_policy (fun _ => none) (fun _ => "x")
    (fun _ => "x") "x" 2 0 0 (by with_unfolding_all rfl)

/-!
## Procedural Memory retrieval (procedural_memory.py, lines 121-175)
-/

/-- The query dict of `ProceduralMemory.retrieve`, with the code's defaults. -/
structure ProceduralQuery where
  procedureType : String := ""
  contextKeywords : List String := []
  minSuccessRate : ℚ := 0
  tools : List String := []

/-- Procedural relevance: 3 per type exact match, 2 per context/description
keyword hit, 2 per queried tool inside a list-valued pattern, plus the
continuous `2 × success_rate` bonus. -/
def proceduralScore (q : ProceduralQuery) (p : Dict) : ℚ :=
  let ptype := lowerStr q.procedureType
  let kws := q.contextKeywords.map lowerStr
  let s1 : ℚ := if ptype ≠ "" ∧ ptype = lowerStr (jStrD (dictGet p "procedure_type") "") then 3 else 0
  let context := lowerStr (jStrD (dictGet p "context") "")
  let description := lowerStr (jStrD (dictGet p "description") "")
  let s2 : ℚ := 2 * ((kws.filter (fun k => strContains context k || strContains description k)).length : ℚ)
  let s3 : ℚ :=
    match dictGet p "pattern" with
    | some (.arr xs) => 2 * ((q.tools.filter (fun t => xs.any (fun n => jIsStr n t))).length : ℚ)
    | _ => 0
  let bonus : ℚ := jNumD (dictGet p "success_rate") (1/2) * 2
  s1 + s2 + s3 + bonus

/-- `ProceduralMemory.retrieve`: drop records below `min_success_rate`
(when supplied), keep positive scores (or everything when type, keywords
and tools are all absent), stable sort by score descending, truncate,
project. -/
def proceduralRetrieve (data : List Dict) (q : ProceduralQuery) (limit : Nat) :
    List Dict :=
  let scored := data.filterMap (fun p =>
    if 0 < q.minSuccessRate ∧ jNumD (dictGet p "success_rate") 0 < q.minSuccessRate then
      none
    else if 0 < proceduralScore q p ∨
        (q.procedureType = "" ∧ q.contextKeywords = [] ∧ q.tools = []) then
      some ⟨p, proceduralScore q p⟩
    else none)
  ((sortScoredDesc scored).take limit).map (·.entry)

/-!
## Cycle Controller (coala_reasoning_engine.py)

The controller's effectful collaborators are gathered in `Env`:
the two language models are opaque response streams consumed by call
index (`reason(prompt) -> text`; the prompt strings do not influence the
oracle, so they are not materialised), tools map parameters to a result
dict or a raised exception, and clock/uuid readings are indexed streams.
`CoreState` is the per-run mutable state outside the loop counters; the
loop counters (`cycle`, phase) live in `LoopSt` and are only written by
the `reason()` loop itself, as in the code.
-/

/-- The states of the CoALA cycle (`CoALAState` enum). -/
inductive CState where
  | initial
  | planning
  | execution
  | completed
  | error
  deriving DecidableEq

/-- `CoALAState.value`. -/
def CState.value : CState → String
  | .initial => "initial"
  | .planning => "planning"
  | .execution => "execution"
  | .completed => "completed"
  | .error => "error"

/-- The `CycleStep` dataclass. `actionSelected` and `reasoning` hold the
raw values taken from the parsed plan. -/
structure CycleStep where
  cycleNumber : Nat
  state : CState
  timestamp : String
  actionSelected : JValue
  actionType : String
  reasoning : JValue
  results : Dict
  confidence : ℚ

/-- `CycleStep.to_dict`. -/
def CycleStep.toDict (s : CycleStep) : Dict :=
  [("cycle", .num s.cycleNumber), ("state", .str s.state.value),
   ("timestamp", .str s.timestamp), ("action_selected", s.actionSelected),
   ("action_type", .str s.actionType), ("reasoning", s.reasoning),
   ("results", .obj s.results), ("confidence", .num s.confidence)]

/-- A registered external tool: `invoke(parameters) -> result mapping`,
with `.error` for a raised exception. -/
structure ToolSpec where
  execute : JValue → Except String Dict

/-- The controller's environment: model-response streams, the tool catalog,
the external TOON decoder, the cycle budget, and clock/uuid streams. -/
structure Env where
  reasoning : Nat → String
  general : Nat → String
  tools : List (String × ToolSpec)
  toonLoads : String → Option Dict
  maxCycles : Nat
  times : Nat → String
  ids : Nat → String
  pyRepr : JValue → String

/-- Per-run state other than the loop counters: stream cursors, the four
memory modules, the working-memory state and history, the cycle history,
and the preprocessed keywords. -/
structure CoreState where
  rIdx : Nat := 0
  gIdx : Nat := 0
  tIdx : Nat := 0
  uIdx : Nat := 0
  wmState : Dict := []
  wmHistory : List Dict := []
  episodic : List Dict := []
  semantic : List Dict := []
  procedural : List Dict := []
  cycleHistory : List CycleStep := []
  taskKeywords : List String := []
  originalTask : String := ""

/-- `WorkingMemory.add_intermediate_result`. -/
def wmAddIntermediate (st : CoreState) (k : String) (v : JValue) : CoreState :=
  let ir : Dict :=
    match dictGet st.wmState "intermediate_results" with
    | some (.obj fs) => fs
    | _ => []
  { st with wmState := dictSet st.wmState "intermediate_results" (.obj (dictSet ir k v)) }

/-- `WorkingMemory.reset`: archive a non-empty current state into the
history (with timestamps and a fresh id, as `store` adds them) and clear. -/
def wmReset (env : Env) (st : CoreState) : CoreState :=
  if st.wmState.isEmpty then { st with wmState := [] }
  else
    let entry : Dict := [("type", .str "completed_state"), ("state", .obj st.wmState)]
    let stamped := addTimestamp entry (env.times st.tIdx)
    let withId := dictSet stamped "id" (.str ("working_" ++ env.ids st.uIdx))
    { st with
        wmState := []
        wmHistory := st.wmHistory ++ [withId]
        tIdx := st.tIdx + 1
        uIdx := st.uIdx + 1 }

/-- `WorkingMemory.set_current_task`. -/
def wmSetCurrentTask (env : Env) (st : CoreState) (task : String) : CoreState :=
  let s1 := dictSet st.wmState "task" (.str task)
  let s2 := dictSet s1 "task_start_time" (.str (env.times st.tIdx))
  { st with wmState := s2, tIdx := st.tIdx + 1 }

/-- Digits of a natural number (fuel-bounded, kernel-evaluable). -/
def natToStrAux : Nat → Nat → List Char
  | 0, _ => []
  | fuel + 1, n =>
    if n < 10 then [Char.ofNat (48 + n)]
    else natToStrAux fuel (n / 10) ++ [Char.ofNat (48 + n % 10)]

/-- Decimal rendering of a natural number. -/
def natToStr (n : Nat) : String :=
  String.mk (natToStrAux (n + 1) n)

/-- Python `str.split()` on whitespace, dropping empty pieces. -/
def splitWsChars (current : List Char) : List Char → List String
  | [] => if current.isEmpty then [] else [String.mk current.reverse]
  | c :: rest =>
    if isReWs c then
      if current.isEmpty then splitWsChars [] rest
      else String.mk current.reverse :: splitWsChars [] rest
    else splitWsChars (c :: current) rest

/-- Python `str.split()`. -/
def splitWs (s : String) : List String :=
  splitWsChars [] s.toList

/-- First alternative of the confidence regex, `0\.\d+`, at this position:
the fraction digits and their count. -/
def matchFloatZero (cs : List Char) : Option (Nat × Nat) :=
  match cs with
  | '0' :: '.' :: d :: rest =>
    if d.isDigit then
      let (fp, fl, _) := digitsAcc 0 0 (d :: rest)
      some (fp, fl)
    else none
  | _ => none

/-- Second alternative, `\d+\.\d+`, at this position. -/
def matchFloatFull (cs : List Char) : Option ℚ :=
  match cs with
  | [] => none
  | c :: _ =>
    if c.isDigit then
      let (ip, _, rest1) := digitsAcc 0 0 cs
      match rest1 with
      | '.' :: d :: rest2 =>
        if d.isDigit then
          let (fp, fl, _) := digitsAcc 0 0 (d :: rest2)
          some ((ip : ℚ) + (fp : ℚ) / (10 : ℚ)^fl)
        else none
      | _ => none
    else none

/-- Leftmost match of `re.findall(r'0\.\d+|\d+\.\d+', s)` (the code only
uses the first match), trying the alternatives in order at each position. -/
def findFloatLit : List Char → Option ℚ
  | [] => none
  | c :: rest =>
    match matchFloatZero (c :: rest) with
    | some (fp, fl) => some ((fp : ℚ) / (10 : ℚ)^fl)
    | none =>
      match matchFloatFull (c :: rest) with
      | some q => some q
      | none => findFloatLit rest

/-- `CoALAReasoningEngine._parse_confidence` (lines 623-634): strings go
through the float-literal regex with 0.5 fallback; other values through
`float(...)` — numbers unchanged, booleans to 1.0/0.0, anything else
raising and caught to 0.5. -/
def parseConfidence (v : JValue) : ℚ :=
  match v with
  | .str s =>
    match findFloatLit s.toList with
    | some q => q
    | none => 1/2
  | .num q => q
  | .bool b => if b then 1 else 0
  | _ => 1/2

/-- The seven statically registered internal actions and their kinds
(`CoALAActionSpace._register_internal_actions`). -/
def internalActionType (name : String) : Option String :=
  if name = "reasoning" then some "internal_reasoning"
  else if name = "retrieve_episodic" || name = "retrieve_semantic" ||
      name = "retrieve_procedural" then some "internal_retrieval"
  else if name = "store_episode" || name = "store_fact" ||
      name = "store_procedure" then some "internal_learning"
  else none

/-- Tool lookup in the catalog. -/
def findTool (env : Env) (name : String) : Option ToolSpec :=
  (env.tools.find? (fun t => t.1 = name)).map (·.2)

/-- `CoALAActionSpace.get_action(...).action_type`: external registration
runs after internal registration and overwrites same-named entries, so a
tool name always resolves to an external action. -/
def getActionType (env : Env) (name : String) : Option String :=
  match findTool env name with
  | some _ => some "external_grounding"
  | none => internalActionType name

/-- `CoALAReasoningEngine._preprocess_task` (lines 468-518): empty task →
no keywords; otherwise one general-model request, whose parse supplies the
keyword list (stored as strings per the preprocessing contract) plus two
working-memory notes, with the lowered-and-split task as fallback. -/
def preprocessTask (env : Env) (st : CoreState) : CoreState :=
  if st.originalTask = "" then { st with taskKeywords := [] }
  else
    let resp := env.general st.gIdx
    let st1 := { st with gIdx := st.gIdx + 1 }
    let pr := parseData env.toonLoads resp
    if hasKey pr "error" = false ∧ hasKey pr "keywords" = true then
      let st2 := wmAddIntermediate st1 "task_category" (dictGetD pr "task_category" (.str ""))
      let st3 := wmAddIntermediate st2 "extracted_entities" (dictGetD pr "entities" (.obj []))
      { st3 with taskKeywords := jStrListD (dictGet pr "keywords") }
    else { st1 with taskKeywords := splitWs (lowerStr st.originalTask) }

/-- `CoALAReasoningEngine._planning_cycle` (lines 195-314): retrieve from
the three long-term memories with limits 3/5/3, note the counts in working
memory, request a structured decision from the reasoning model (with the
parse-retry fallback), record confidence and the planning `CycleStep`, and
either signal completion (`none`) or hand the selected action to the
Execution phase. -/
def planningCycle (env : Env) (cycle : Nat) (st : CoreState) :
    CoreState × Option JValue :=
  let kws := if st.taskKeywords ≠ [] then st.taskKeywords
    else splitWs (lowerStr st.originalTask)
  let pastEpisodes := episodicRetrieve st.episodic { taskKeywords := kws } 3
  let relevantFacts := semanticRetrieve st.semantic { keywords := kws } 5
  let relevantProcedures := proceduralRetrieve st.procedural { contextKeywords := kws } 3
  let st1 := wmAddIntermediate st "retrieved_episodes" (.num pastEpisodes.length)
  let st2 := wmAddIntermediate st1 "retrieved_facts" (.num relevantFacts.length)
  let st3 := wmAddIntermediate st2 "retrieved_procedures" (.num relevantProcedures.length)
  let response := env.reasoning st3.rIdx
  let st4 := { st3 with rIdx := st3.rIdx + 1 }
  let plan0 := parseData env.toonLoads response
  let (plan, rIdx5, gIdx5) :=
    if hasKey plan0 "error" then
      let r := parseDataWithRetry env.toonLoads env.reasoning env.general response
        2 1 st4.rIdx st4.gIdx
      (r.1, r.2.1, r.2.2.1)
    else (plan0, st4.rIdx, st4.gIdx)
  let st5 := { st4 with rIdx := rIdx5, gIdx := gIdx5 }
  let nextAction := dictGetD plan "next_action" .null
  let taskComplete := dictGetD plan "task_complete" (.bool false)
  let confidence := parseConfidence (dictGetD plan "confidence" (.num (1/2)))
  let st6 := { st5 with wmState := dictSet st5.wmState "confidence" (.num confidence) }
  let step : CycleStep :=
    ⟨cycle, .planning, env.times st6.tIdx, nextAction,
      (if jTruthy nextAction then "grounding" else "none"),
      dictGetD plan "reasoning" (.str ""), [("plan", .obj plan)], confidence⟩
  let st7 := { st6 with cycleHistory := st6.cycleHistory ++ [step], tIdx := st6.tIdx + 1 }
  if jTruthy taskComplete then (st7, none)
  else
    match nextAction with
    | .null => (st7, none)
    | na =>
      let st8 := wmAddIntermediate st7 "selected_action" na
      let st9 := wmAddIntermediate st8 "action_parameters" (dictGetD plan "parameters" (.obj []))
      (st9, some na)

/-- Python iteration over a `metadata.get('tags', [])` value inside
`tags.extend(...)`: lists yield their elements, strings their characters,
dicts their keys; other non-missing values are not iterable (`TypeError`),
modelled as `none`. -/
def pyIterTags (v : Option JValue) : Option (List JValue) :=
  match v with
  | none => some []
  | some (.arr xs) => some xs
  | some (.str s) => some (s.toList.map (fun c => .str (String.mk [c])))
  | some (.obj fs) => some (fs.map (fun kv => JValue.str kv.1))
  | some _ => none

/-- `SemanticMemory.store_region_info` (semantic_memory.py, lines 188-217)
as called from the Execution phase with `metadata = result`. `none` models
an exception escaping from the helper (a non-iterable `tags` value in the
metadata). The human-readable `content` rendering of the bbox/center
values is the environment's abstract `pyRepr` formatter (a float's
printed form depends on binary float representation, outside the exact
rational model). -/
def storeRegionInfo (env : Env) (st : CoreState)
    (regionName : String) (bbox center : JValue) (metadata : Dict) :
    Option CoreState :=
  let baseTags : List JValue := [.str "region", .str "geography", .str (lowerStr regionName)]
  let extra : Option (List JValue) :=
    if metadata.isEmpty then some [] else pyIterTags (dictGet metadata "tags")
  match extra with
  | none => none
  | some ex =>
    let entry : Dict :=
      [("concept", .str "region"), ("entity", .str regionName),
       ("fact_type", .str "bounding_box"),
       ("content", .str (regionName ++ " bounding box: " ++ env.pyRepr bbox ++
         ", center: " ++ env.pyRepr center)),
       ("data", .obj [("bbox", bbox), ("center", center), ("metadata", .obj metadata)]),
       ("tags", .arr (baseTags ++ ex)),
       ("source", .str "region_mapper_tool")]
    let so := semanticStore st.semantic entry (env.times st.tIdx) (env.ids st.uIdx) true
    some { st with semantic := so.data, tIdx := st.tIdx + 1, uIdx := st.uIdx + 1 }

/-- The parameter key a learning action's bound `execute` reads. -/
def learningParamKey (name : String) : String :=
  if name = "store_episode" then "episode"
  else if name = "store_fact" then "fact"
  else "procedure"

/-- `CoALAActionSpace.execute_action` for the three learning actions: the
bound lambda calls the memory module's `store(params.get(key, {}))`.
`none` models a raised exception (non-dict parameters or entry, or the
store's own `ValueError`), which the Execution phase catches. -/
def execLearning (env : Env) (st : CoreState) (name : String) (params : JValue) :
    Option (CoreState × JValue) :=
  match params with
  | .obj pfs =>
    match dictGetD pfs (learningParamKey name) (.obj []) with
    | .obj entry =>
      if name = "store_episode" then
        let so := episodicStore st.episodic entry (env.times st.tIdx) (env.ids st.uIdx) true
        match so.ret with
        | .error _ => none
        | .ok idv => some ({ st with episodic := so.data, tIdx := st.tIdx + 1, uIdx := st.uIdx + 1 }, idv)
      else if name = "store_fact" then
        let so := semanticStore st.semantic entry (env.times st.tIdx) (env.ids st.uIdx) true
        match so.ret with
        | .error _ => none
        | .ok idv => some ({ st with semantic := so.data, tIdx := st.tIdx + 1, uIdx := st.uIdx + 1 }, idv)
      else
        let so := proceduralStore st.procedural entry (env.times st.tIdx) (env.ids st.uIdx) true
        match so.ret with
        | .error _ => none
        | .ok idv => some ({ st with procedural := so.data, tIdx := st.tIdx + 1, uIdx := st.uIdx + 1 }, idv)
    | _ => none
  | _ => none

/-- The `intermediate_results` mapping `_execution_cycle` reads from the
current working-memory state (only `add_intermediate_result` ever writes
it, so it is a dict whenever present). -/
def wmIntermediate (st : CoreState) : Dict :=
  match dictGet st.wmState "intermediate_results" with
  | some (.obj fs) => fs
  | _ => []

/-- `CoALAReasoningEngine._execution_cycle` (lines 316-385). Returns the new core
state, the `should_continue` flag, and a fault flag for the one exception
that escapes this method in Python (an unhashable `selected_action` value
raising from the pre-`try` action lookup into `reason()`'s outer handler).
A raised tool invocation is caught by the method's own `try`: no
`CycleStep` is appended, nothing else is written, and `False` is
returned. -/
def executionCycle (env : Env) (cycle : Nat)
    (st : CoreState) : CoreState × Bool × Bool :=
  match dictGet (wmIntermediate st) "selected_action" with
  | none => (st, false, false)
  | some av =>
    if !jTruthy av then (st, false, false)
    else
      match av with
      | .arr _ => (st, false, true)
      | .obj _ => (st, false, true)
      | .str name =>
        (match getActionType env name with
        | none => (st, false, false)
        | some ty =>
          if ty = "external_grounding" then
            match findTool env name with
            | none => (st, false, false)
            | some tool =>
              match tool.execute (dictGetD (wmIntermediate st) "action_parameters" (.obj [])) with
              | .error _ => (st, false, false)
              | .ok result =>
                let st1 := wmAddIntermediate st ("tool_result_" ++ name) (.obj result)
                let afterRegion : Option CoreState :=
                  if name = "region_mapper" ∧ hasKey result "bbox" then
                    match dictGetD (wmIntermediate st) "action_parameters" (.obj []) with
                    | .obj pfs =>
                      match dictGetD pfs "region_name" (.str "unknown") with
                      | .str rn =>
                        storeRegionInfo env st1 rn (dictGetD result "bbox" (.arr []))
                          (dictGetD result "center" (.arr [])) result
                      | _ => none
                    | _ => none
                  else some st1
                match afterRegion with
                | none => (st1, false, false)
                | some st2 =>
                  let step : CycleStep :=
                    ⟨cycle, .execution, env.times st2.tIdx, .str name, "external_grounding",
                      .str ("Executed " ++ name), [("action_result", .obj result)], 4/5⟩
                  ({ st2 with cycleHistory := st2.cycleHistory ++ [step], tIdx := st2.tIdx + 1 },
                    decide (cycle < env.maxCycles), false)
          else if ty = "internal_learning" then
            match execLearning env st name (dictGetD (wmIntermediate st) "action_parameters" (.obj [])) with
            | none => (st, false, false)
            | some (st2, ret) =>
              let step : CycleStep :=
                ⟨cycle, .execution, env.times st2.tIdx, .str name, "internal_learning",
                  .str ("Executed " ++ name), [("action_result", ret)], 4/5⟩
              ({ st2 with cycleHistory := st2.cycleHistory ++ [step], tIdx := st2.tIdx + 1 },
                decide (cycle < env.maxCycles), false)
          else
            let step : CycleStep :=
              ⟨cycle, .execution, env.times st.tIdx, .str name, ty,
                .str ("Executed " ++ name),
                [("action_result", .obj [("status", .str "unsupported_action_type")])], 4/5⟩
            ({ st with cycleHistory := st.cycleHistory ++ [step], tIdx := st.tIdx + 1 },
              decide (cycle < env.maxCycles), false))
      | _ => (st, false, false)

/-- The full loop state: the current phase, the cycle counter, the number
of Execution phases entered so far (instrumentation the proofs count with;
the code performs an Execution phase exactly when the loop dispatches on
`EXECUTION`), and the core state. -/
structure LoopSt where
  phase : CState
  cycle : Nat
  execs : Nat
  core : CoreState

/-- One iteration of the `while self.current_cycle < self.max_cycles` loop
of `reason()` (lines 148-185): `done` when the loop exits (guard false, or
the state is terminal), `cont` with the next state otherwise. A planning
fault cannot occur in the model (all planning-phase collaborators are
total); the one modelled execution fault moves the run to `ERROR`, as the
outer `except` does. -/
inductive StepRes where
  | done (ls : LoopSt)
  | cont (ls : LoopSt)

/-- The loop body dispatch. -/
def loopStep (env : Env) (ls : LoopSt) : StepRes :=
  if env.maxCycles ≤ ls.cycle then .done ls
  else
    match ls.phase with
    | .completed => .done ls
    | .error => .done ls
    | .initial => .cont { ls with phase := .planning, cycle := 1 }
    | .planning =>
      match (planningCycle env ls.cycle ls.core).2 with
      | none => .cont { ls with
          phase := .completed
          core := (planningCycle env ls.cycle ls.core).1 }
      | some _ => .cont { ls with
          phase := .execution
          core := (planningCycle env ls.cycle ls.core).1 }
    | .execution =>
      if (executionCycle env ls.cycle ls.core).2.2 then
        .cont { ls with
          phase := .error
          execs := ls.execs + 1
          core := (executionCycle env ls.cycle ls.core).1 }
      else if (executionCycle env ls.cycle ls.core).2.1 && decide (ls.cycle < env.maxCycles) then
        .cont { ls with
          phase := .planning
          cycle := ls.cycle + 1
          execs := ls.execs + 1
          core := (executionCycle env ls.cycle ls.core).1 }
      else
        .cont { ls with
          phase := .completed
          execs := ls.execs + 1
          core := (executionCycle env ls.cycle ls.core).1 }

/-- The loop, fuel-bounded: `none` means the fuel ran out, which the
sufficiency theorem below shows cannot happen at the fuel `reason()`
supplies. -/
def runLoop (env : Env) : Nat → LoopSt → Option LoopSt
  | fuel, ls =>
    match loopStep env ls with
    | .done ls2 => some ls2
    | .cont ls2 =>
      match fuel with
      | 0 => none
      | f + 1 => runLoop env f ls2

/-- The `tool_results` / `actions_executed` accumulation of
`_synthesize_final_result` (lines 413-420); execution-phase steps with a
truthy selected action contribute (their selected action is always a
string, as `_execution_cycle` constructs them). -/
def synthAccum (hist : List CycleStep) : Dict × List JValue :=
  hist.foldl (fun acc step =>
    if step.state = .execution ∧ jTruthy step.actionSelected then
      let acts := acc.2 ++ [step.actionSelected]
      let tr :=
        if hasKey step.results "action_result" then
          dictSet acc.1 (jStrD (some step.actionSelected) "")
            ((dictGet step.results "action_result").getD .null)
        else acc.1
      (tr, acts)
    else acc) ([], [])

/-- The templated five-field summary used when the synthesis response
cannot be parsed (lines 452-459). -/
def synthTemplate (task : String) (nActs : Nat) (conf : ℚ) : Dict :=
  [("situation_summary", JValue.str ("Completed task: " ++ task)),
   ("analysis", JValue.str ("Executed " ++ natToStr nActs ++ " actions")),
   ("recommendations", JValue.arr [JValue.str "Review results"]),
   ("confidence", JValue.num conf),
   ("task_status", JValue.str "completed")]

/-- The four trace fields `_synthesize_final_result` writes into the dict
it returns (lines 461-464). -/
def augmentResult (base : Dict) (hist : List CycleStep) (toolResults : Dict)
    (cycle : Nat) (acts : List JValue) : Dict :=
  dictSet (dictSet (dictSet (dictSet base
    "reasoning_trace" (.arr (hist.map (fun s => .obj s.toDict))))
    "tool_results" (.obj toolResults))
    "total_cycles" (.num cycle))
    "actions_executed" (.arr acts)

/-- `CoALAReasoningEngine._synthesize_final_result` (lines 411-466): one
reasoning-model request (with the parse-retry fallback), a templated
five-field summary if parsing still fails, then the four trace fields are
written into the dict. Returns the final dict, the pre-augmentation parse
result, and the core state with the consumed stream cursors. -/
def synthesizeFinalResult (env : Env) (ls : LoopSt) : Dict × Dict × CoreState :=
  let st := ls.core
  let (toolResults, actionsExecuted) := synthAccum st.cycleHistory
  let finalConfidence := jNumD (dictGet st.wmState "confidence") (1/2)
  let response := env.reasoning st.rIdx
  let st1 := { st with rIdx := st.rIdx + 1 }
  let plan0 := parseData env.toonLoads response
  let (synth, rIdx2, gIdx2) :=
    if hasKey plan0 "error" then
      let r := parseDataWithRetry env.toonLoads env.reasoning env.general response
        2 1 st1.rIdx st1.gIdx
      (r.1, r.2.1, r.2.2.1)
    else (plan0, st1.rIdx, st1.gIdx)
  let st2 := { st1 with rIdx := rIdx2, gIdx := gIdx2 }
  let base :=
    if hasKey synth "error" then
      synthTemplate st.originalTask actionsExecuted.length finalConfidence
    else synth
  (augmentResult base st.cycleHistory toolResults ls.cycle actionsExecuted, synth, st2)

/-- `CoALAReasoningEngine._store_episode` (lines 387-409): commit the run
as one Episode (its `task` key is always present, so the store cannot
raise). -/
def storeEpisode (env : Env) (st : CoreState) (finalResult : Dict)
    (cycle : Nat) : CoreState :=
  let actionsTaken : List JValue :=
    (st.cycleHistory.filter (fun s => jTruthy s.actionSelected)).map (fun s =>
      .obj [("action", s.actionSelected), ("type", .str s.actionType),
            ("cycle", .num s.cycleNumber)])
  let episode : Dict :=
    [("task", .str st.originalTask),
     ("actions", .arr actionsTaken),
     ("results", dictGetD finalResult "tool_results" (.obj [])),
     ("outcome", dictGetD finalResult "task_status" (.str "completed")),
     ("confidence", dictGetD finalResult "confidence" (.num (1/2))),
     ("reasoning_trace", .arr (st.cycleHistory.map (fun s => .obj s.toDict))),
     ("cycles", .num cycle)]
  let so := episodicStore st.episodic episode (env.times st.tIdx) (env.ids st.uIdx) true
  { st with episodic := so.data, tIdx := st.tIdx + 1, uIdx := st.uIdx + 1 }

/-- The observable outcome of one `reason()` run. -/
structure RunResult where
  result : Dict
  synth : Dict
  final : LoopSt

/-- The fuel `reason()`'s loop is run with; the sufficiency theorem shows
it always reaches a terminal state within it. -/
def loopFuel (env : Env) : Nat :=
  2 * env.maxCycles + 1

/-- The loop state `reason()` starts from: cycle log and working memory
reset, task set, task preprocessed, cycle counter 0, phase `INITIAL`. -/
def reasonInit (env : Env) (initCore : CoreState) (task : String) : LoopSt :=
  { phase := .initial, cycle := 0, execs := 0,
    core := preprocessTask env (wmSetCurrentTask env
      (wmReset env { initCore with originalTask := task, cycleHistory := [] }) task) }

/-- The loop state `reason()`'s loop ends in. -/
def reasonFin (env : Env) (initCore : CoreState) (task : String) : LoopSt :=
  (runLoop env (loopFuel env) (reasonInit env initCore task)).getD
    { reasonInit env initCore task with phase := .error }

/-- `CoALAReasoningEngine.reason(situation_data)` (lines 122-193), for a
run starting from the injected memory state `initCore` and the situation's
`task_description`: reset the cycle log and working memory, preprocess the
task, drive the Planning/Execution loop, synthesize the final result and
commit the episode. -/
def reasonFull (env : Env) (initCore : CoreState) (task : String) : RunResult :=
  let fin := reasonFin env initCore task
  let r := synthesizeFinalResult env fin
  { result := r.1, synth := r.2.1,
    final := { fin with core := storeEpisode env r.2.2 r.1 fin.cycle } }

/-- The result dict of one run (the value `reason()` returns). -/
def reasonResult (env : Env) (initCore : CoreState) (task : String) : Dict :=
  (reasonFull env initCore task).result

/-!
## C2 — the cycle budget bounds the loop

The loop counters are owned by `runLoop` alone (`planningCycle` and
`executionCycle` return only a `CoreState`), so the budget argument is a
pure induction on the loop.
-/

/-- Upper bound on the number of Execution phases the loop can still
accumulate from a given state. -/
def loopBound (env : Env) (ls : LoopSt) : Nat :=
  ls.execs +
    match ls.phase with
    | .initial => env.maxCycles
    | .planning => (env.maxCycles - ls.cycle) + 1
    | .execution => (env.maxCycles - ls.cycle) + 1
    | _ => 0

/-- Fuel sufficient to drive the loop from a given state to a terminal
result. -/
def fuelNeed (env : Env) (ls : LoopSt) : Nat :=
  match ls.phase with
  | .initial => 2 * env.maxCycles + 1
  | .planning => 2 * (env.maxCycles - ls.cycle) + 2
  | .execution => 2 * (env.maxCycles - ls.cycle) + 1
  | _ => 0

theorem loopStep_done_eq (env : Env) (ls ls2 : LoopSt)
    (h : loopStep env ls = .done ls2) : ls2 = ls := by
  unfold loopStep at h
  split at h
  · cases h; rfl
  · split at h
    · cases h; rfl
    · cases h; rfl
    · cases h
    · split at h <;> cases h
    · split at h
      · cases h
      · split at h <;> cases h

theorem loopStep_cont_bound (env : Env) (ls ls2 : LoopSt)
    (h : loopStep env ls = .cont ls2) :
    loopBound env ls2 ≤ loopBound env ls ∧
    fuelNeed env ls2 < fuelNeed env ls ∧
    max ls2.cycle env.maxCycles ≤ max ls.cycle env.maxCycles := by
  unfold loopStep at h
  split at h
  · cases h
  · rename_i hguard
    split at h
    · cases h
    · cases h
    · rename_i hphase
      cases h
      simp only [loopBound, fuelNeed, hphase]
      refine ⟨by omega, by omega, by omega⟩
    · rename_i hphase
      split at h
      · cases h
        simp only [loopBound, fuelNeed, hphase]
        exact ⟨by omega, by omega, by omega⟩
      · cases h
        simp only [loopBound, fuelNeed, hphase]
        exact ⟨by omega, by omega, by omega⟩
    · rename_i hphase
      split at h
      · cases h
        simp only [loopBound, fuelNeed, hphase]
        refine ⟨by omega, by omega, by omega⟩
      · split at h
        · rename_i hcont
          cases h
          have hlt : ls.cycle < env.maxCycles := by
            rcases Bool.and_eq_true .. |>.mp hcont with ⟨_, h2⟩
            exact of_decide_eq_true h2
          simp only [loopBound, fuelNeed, hphase]
          refine ⟨by omega, by omega, by omega⟩
        · cases h
          simp only [loopBound, fuelNeed, hphase]
          refine ⟨by omega, by omega, by omega⟩

theorem runLoop_execs_le (env : Env) :
    ∀ (f : Nat) (ls r : LoopSt), runLoop env f ls = some r →
      r.execs ≤ loopBound env ls := by
  intro f
  induction f with
  | zero =>
    intro ls r h
    unfold runLoop at h
    rcases hstep : loopStep env ls with ls2 | ls2 <;> rw [hstep] at h
    · cases h
      rw [loopStep_done_eq env ls _ hstep]
      exact Nat.le_add_right _ _
    · cases h
  | succ n ih =>
    intro ls r h
    unfold runLoop at h
    rcases hstep : loopStep env ls with ls2 | ls2 <;> rw [hstep] at h
    · cases h
      rw [loopStep_done_eq env ls _ hstep]
      exact Nat.le_add_right _ _
    · exact le_trans (ih _ _ h) (loopStep_cont_bound env ls ls2 hstep).1

theorem runLoop_cycle_le (env : Env) :
    ∀ (f : Nat) (ls r : LoopSt), runLoop env f ls = some r →
      r.cycle ≤ max ls.cycle env.maxCycles := by
  intro f
  induction f with
  | zero =>
    intro ls r h
    unfold runLoop at h
    rcases hstep : loopStep env ls with ls2 | ls2 <;> rw [hstep] at h
    · cases h
      rw [loopStep_done_eq env ls _ hstep]
      exact le_max_left _ _
    · cases h
  | succ n ih =>
    intro ls r h
    unfold runLoop at h
    rcases hstep : loopStep env ls with ls2 | ls2 <;> rw [hstep] at h
    · cases h
      rw [loopStep_done_eq env ls _ hstep]
      exact le_max_left _ _
    · exact le_trans (ih _ _ h) (loopStep_cont_bound env ls ls2 hstep).2.2

theorem runLoop_isSome (env : Env) :
    ∀ (f : Nat) (ls : LoopSt), fuelNeed env ls ≤ f →
      (runLoop env f ls).isSome := by
  intro f
  induction f with
  | zero =>
    intro ls hf
    unfold runLoop
    rcases hstep : loopStep env ls with ls2 | ls2
    · simp
    · exact absurd (loopStep_cont_bound env ls ls2 hstep).2.1 (by omega)
  | succ n ih =>
    intro ls hf
    unfold runLoop
    rcases hstep : loopStep env ls with ls2 | ls2
    · simp
    · exact ih ls2 (by
        have := (loopStep_cont_bound env ls ls2 hstep).2.1
        omega)

/-- C2 (confirmed): for every cycle budget `max_cycles` supplied at
construction and every sequence of model responses and tool results, one
`reason()` run performs at most `max_cycles` Execution phases, and the
Planning/Execution loop reaches a terminal state within the fuel
`reason()` supplies with a final cycle counter at most `max_cycles` — the
loop terminates at or before the budget even if the model always requests
continuation. -/
theorem reason_respects_cycle_budget (env : Env) (initCore : CoreState)
    (task : String) :
    (runLoop env (loopFuel env) (reasonInit env initCore task)).isSome ∧
    (reasonFull env initCore task).final.execs ≤ env.maxCycles ∧
    (reasonFull env initCore task).final.cycle ≤ env.maxCycles := by
  have hfuel : fuelNeed env (reasonInit env initCore task) ≤ loopFuel env := by
    simp [fuelNeed, reasonInit, loopFuel]
  have hsome := runLoop_isSome env (loopFuel env) (reasonInit env initCore task) hfuel
  refine ⟨hsome, ?_, ?_⟩
  · rcases hr : runLoop env (loopFuel env) (reasonInit env initCore task) with _ | r
    · rw [hr] at hsome
      simp at hsome
    · have hfin : (reasonFull env initCore task).final.execs =
          (reasonFin env initCore task).execs := rfl
      rw [hfin]
      unfold reasonFin
      rw [hr]
      have hb := runLoop_execs_le env (loopFuel env) _ r hr
      simpa [loopBound, reasonInit] using hb
  · rcases hr : runLoop env (loopFuel env) (reasonInit env initCore task) with _ | r
    · rw [hr] at hsome
      simp at hsome
    · have hfin : (reasonFull env initCore task).final.cycle =
          (reasonFin env initCore task).cycle := rfl
      rw [hfin]
      unfold reasonFin
      rw [hr]
      have hb := runLoop_cycle_le env (loopFuel env) _ r hr
      have hinit : (reasonInit env initCore task).cycle = 0 := rfl
      rw [hinit] at hb
      simpa using hb

/-!
## C3 — the shape of `reason()`'s result
-/

theorem hasKey_dictSet_same (d : Dict) (k : String) (v : JValue) :
    hasKey (dictSet d k v) k = true := by
  simp [hasKey, dictGet_dictSet_same]

theorem dictKeys_dictSet_new (d : Dict) (k : String) (v : JValue)
    (h : hasKey d k = false) : dictKeys (dictSet d k v) = dictKeys d ++ [k] := by
  induction d with
  | nil => simp [dictSet, dictKeys]
  | cons kv rest ih =>
    obtain ⟨k₀, v₀⟩ := kv
    by_cases hk : k₀ = k
    · simp [hasKey, dictGet, hk] at h
    · simp only [hasKey, dictGet, if_neg hk] at h
      simp only [dictSet, if_neg hk, dictKeys, List.map_cons, List.cons_append]
      exact congrArg (List.cons k₀) (ih h)

theorem augmentResult_hasKeys (base : Dict) (hist : List CycleStep)
    (toolResults : Dict) (cycle : Nat) (acts : List JValue) :
    hasKey (augmentResult base hist toolResults cycle acts) "reasoning_trace" = true ∧
    hasKey (augmentResult base hist toolResults cycle acts) "tool_results" = true ∧
    hasKey (augmentResult base hist toolResults cycle acts) "total_cycles" = true ∧
    hasKey (augmentResult base hist toolResults cycle acts) "actions_executed" = true := by
  unfold augmentResult
  refine ⟨?_, ?_, ?_, ?_⟩
  · rw [hasKey_dictSet_other _ _ _ _ (by decide), hasKey_dictSet_other _ _ _ _ (by decide),
      hasKey_dictSet_other _ _ _ _ (by decide)]
    exact hasKey_dictSet_same _ _ _
  · rw [hasKey_dictSet_other _ _ _ _ (by decide), hasKey_dictSet_other _ _ _ _ (by decide)]
    exact hasKey_dictSet_same _ _ _
  · rw [hasKey_dictSet_other _ _ _ _ (by decide)]
    exact hasKey_dictSet_same _ _ _
  · exact hasKey_dictSet_same _ _ _

theorem augmentResult_template_keys (task : String) (nActs : Nat) (conf : ℚ)
    (hist : List CycleStep) (toolResults : Dict) (cycle : Nat) (acts : List JValue) :
    dictKeys (augmentResult (synthTemplate task nActs conf) hist toolResults cycle acts) =
      ["situation_summary", "analysis", "recommendations", "confidence", "task_status",
       "reasoning_trace", "tool_results", "total_cycles", "actions_executed"] := by
  unfold augmentResult
  rw [dictKeys_dictSet_new _ _ _ (by
      rw [hasKey_dictSet_other _ _ _ _ (by decide), hasKey_dictSet_other _ _ _ _ (by decide),
        hasKey_dictSet_other _ _ _ _ (by decide)]
      rfl),
    dictKeys_dictSet_new _ _ _ (by
      rw [hasKey_dictSet_other _ _ _ _ (by decide), hasKey_dictSet_other _ _ _ _ (by decide)]
      rfl),
    dictKeys_dictSet_new _ _ _ (by
      rw [hasKey_dictSet_other _ _ _ _ (by decide)]
      rfl),
    dictKeys_dictSet_new _ _ _ (by rfl)]
  rfl

theorem synthesizeFinalResult_eq (env : Env) (ls : LoopSt) :
    (synthesizeFinalResult env ls).1 =
      augmentResult
        (if hasKey (synthesizeFinalResult env ls).2.1 "error" then
          synthTemplate ls.core.originalTask
            (synthAccum ls.core.cycleHistory).2.length
            (jNumD (dictGet ls.core.wmState "confidence") (1/2))
        else (synthesizeFinalResult env ls).2.1)
        ls.core.cycleHistory (synthAccum ls.core.cycleHistory).1 ls.cycle
        (synthAccum ls.core.cycleHistory).2 := by
  unfold synthesizeFinalResult
  rfl

/-- C3 (amended): every `reason()` run returns a dict — the model never
raises to the caller — that always contains the four controller-written
fields `reasoning_trace`, `tool_results`, `total_cycles` and
`actions_executed`; the exact nine-field shape
`{situation_summary, analysis, recommendations, confidence, task_status,
reasoning_trace, tool_results, total_cycles, actions_executed}` is
guaranteed exactly when the synthesis response (after retries) fails to
parse, for then the templated five-field summary is used as the base — a
parseable synthesis response of any other shape contributes its own keys
instead, so outcomes are distinguishable via `task_status` only when the
synthesis output supplies it. -/
theorem reason_result_shape (env : Env) (initCore : CoreState) (task : String) :
    hasKey (reasonFull env initCore task).result "reasoning_trace" = true ∧
    hasKey (reasonFull env initCore task).result "tool_results" = true ∧
    hasKey (reasonFull env initCore task).result "total_cycles" = true ∧
    hasKey (reasonFull env initCore task).result "actions_executed" = true ∧
    (hasKey (reasonFull env initCore task).synth "error" = true →
      dictKeys (reasonFull env initCore task).result =
        ["situation_summary", "analysis", "recommendations", "confidence", "task_status",
         "reasoning_trace", "tool_results", "total_cycles", "actions_executed"]) := by
  have h1 : (reasonFull env initCore task).result =
      (synthesizeFinalResult env (reasonFin env initCore task)).1 := rfl
  have h2 : (reasonFull env initCore task).synth =
      (synthesizeFinalResult env (reasonFin env initCore task)).2.1 := rfl
  rw [h1, h2, synthesizeFinalResult_eq]
  refine ⟨(augmentResult_hasKeys _ _ _ _ _).1, (augmentResult_hasKeys _ _ _ _ _).2.1,
    (augmentResult_hasKeys _ _ _ _ _).2.2.1, (augmentResult_hasKeys _ _ _ _ _).2.2.2, ?_⟩
  intro herr
  rw [if_pos herr]
  exact augmentResult_template_keys _ _ _ _ _ _ _

/-!
## C1 — a raised tool invocation ends the run without a failure CycleStep

`_execution_cycle`'s `except` catches the raise and returns `False`
without appending any `CycleStep`; the loop then moves to `COMPLETED`, not
to another Planning phase.
-/

theorem executionCycle_tool_raise (env : Env) (cycle : Nat) (st : CoreState)
    (name : String) (tool : ToolSpec) (e : String)
    (hsel : dictGet (wmIntermediate st) "selected_action" = some (.str name))
    (hname : name ≠ "")
    (htool : findTool env name = some tool)
    (hraise : tool.execute (dictGetD (wmIntermediate st) "action_parameters" (.obj [])) =
      .error e) :
    executionCycle env cycle st = (st, false, false) := by
  unfold executionCycle
  rw [hsel]
  simp [jTruthy, hname, getActionType, htool, hraise]

theorem runLoop_terminal_completed (env : Env) (f : Nat) (ls : LoopSt)
    (h : ls.phase = .completed) : runLoop env f ls = some ls := by
  have hstep : loopStep env ls = .done ls := by
    unfold loopStep
    split
    · rfl
    · rw [h]
  unfold runLoop
  rw [hstep]

/-- C1 (amended): in any run where, during an Execution phase, the
selected external tool's invocation raises, the exception is caught
per-step but no `CycleStep` is recorded for it and nothing else is
written: the loop transitions directly to `COMPLETED` with the core state
(cycle history, working memory, memories) unchanged, ending the run
gracefully — it neither proceeds to another Planning phase nor propagates
the exception. -/
theorem tool_exception_ends_run (env : Env) (fuel : Nat) (ls : LoopSt)
    (name : String) (tool : ToolSpec) (e : String)
    (hphase : ls.phase = .execution)
    (hguard : ls.cycle < env.maxCycles)
    (hsel : dictGet (wmIntermediate ls.core) "selected_action" = some (.str name))
    (hname : name ≠ "")
    (htool : findTool env name = some tool)
    (hraise : tool.execute (dictGetD (wmIntermediate ls.core) "action_parameters" (.obj [])) =
      .error e) :
    runLoop env (fuel + 1) ls =
      some { ls with phase := .completed, execs := ls.execs + 1 } := by
  have hexec := executionCycle_tool_raise env ls.cycle ls.core name tool e hsel hname htool hraise
  have hstep : loopStep env ls =
      .cont { ls with phase := .completed, execs := ls.execs + 1 } := by
    unfold loopStep
    rw [if_neg (by omega), hphase, hexec]
    simp
  unfold runLoop
  rw [hstep]
  exact runLoop_terminal_completed env fuel _ rfl

/-- The failing external tool used in the C1 counterexample. -/
def c1Tool : ToolSpec := ⟨fun _ => .error "boom"⟩

/-- Environment for the C1 counterexample: the first planning response
selects the tool `t`, whose invocation raises; every other response is
unparseable. -/
def c1Env : Env :=
  { reasoning := fun n =>
      if n = 0 then
        "\x7b\"next_action\": \"t\", \"parameters\": \x7b\x7d, \"task_complete\": false, \"confidence\": 0.8\x7d"
      else "x"
    general := fun _ => "x"
    tools := [("t", c1Tool)]
    toonLoads := fun _ => none
    maxCycles := 15
    times := fun n => "T" ++ natToStr n
    ids := fun n => "U" ++ natToStr n
    pyRepr := fun _ => "" }

set_option maxRecDepth 8000 in
/-- C1 counterexample: in this run the Planning phase selects tool `t`
(the only planning step carries it), the Execution phase runs (one
Execution phase is performed) and the tool raises — yet the run's
CycleStep log contains no execution entry at all (so no entry with the
tool name and a failure result), and the run ends in `COMPLETED` after a
single Planning phase instead of proceeding to the next Planning phase.
This refutes the claim's "a CycleStep carrying that tool's name and a
failure result is appended" and "the controller proceeds to the next
Planning phase". -/
theorem tool_exception_counterexample :
    (reasonFull c1Env {} "use t").final.execs = 1 ∧
    (reasonFull c1Env {} "use t").final.core.cycleHistory.filter
      (fun s => s.state = .execution) = [] ∧
    (reasonFull c1Env {} "use t").final.core.cycleHistory.map
      (fun s => s.actionSelected) = [.str "t"] ∧
    (reasonFull c1Env {} "use t").final.core.cycleHistory.length = 1 ∧
    (reasonFull c1Env {} "use t").final.phase = .completed := by
  refine ⟨?_, ?_, ?_, ?_, ?_⟩ <;> with_unfolding_all rfl

/-- A concrete execution-phase loop state whose working memory selects the
failing tool `t`. -/
def c1LoopSt : LoopSt where
  phase := .execution
  cycle := 1
  execs := 0
  core := { wmState := [("intermediate_results",
    JValue.obj [("selected_action", JValue.str "t"),
      ("action_parameters", JValue.obj [])])] }

/-- Witness for the amended C1 theorem at a concrete execution-phase
state. -/
theorem tool_exception_ends_run_witness :
    runLoop c1Env 3 c1LoopSt =
      some { c1LoopSt with phase := .completed, execs := 1 } :=
  tool_exception_ends_run c1Env 2 c1LoopSt
    "t" c1Tool "boom" rfl (by decide) rfl (by decide) rfl rfl

/-!
## C9 — the `<think>` completion scenario, and the C3 result shape
-/

/-- The scenario's first Planning-phase model response. -/
def c9Text : String :=
  "<think>...</think> \x7b\"next_action\": null, \"task_complete\": true, \"confidence\": 0.9\x7d"

/-- Environment for the C9 scenario: the first reasoning response is the
scenario text; everything else (preprocessing, synthesis, retries) is
unparseable, exercising the templated summary. -/
def c9Env : Env :=
  { reasoning := fun n => if n = 0 then c9Text else "x"
    general := fun _ => "x"
    tools := []
    toonLoads := fun _ => none
    maxCycles := 15
    times := fun n => "T" ++ natToStr n
    ids := fun n => "U" ++ natToStr n
    pyRepr := fun _ => "" }

set_option maxRecDepth 8000 in
/-- C9 (confirmed): on the response
`"<think>...</think> \x7b\"next_action\": null, \"task_complete\": true, \"confidence\": 0.9\x7d"`,
the thinking segment is stripped and the object parses (first conjunct);
the run's single recorded step is the Planning step, the state machine
moves straight to `COMPLETED` with zero Execution phases, and the
synthesized final result reports `total_cycles = 1`. -/
theorem scenario_think_null_completes :
    parseData c9Env.toonLoads c9Text =
      [("next_action", .null), ("task_complete", .bool true),
       ("confidence", .num (9/10))] ∧
    (reasonFull c9Env {} "analyze").final.phase = .completed ∧
    (reasonFull c9Env {} "analyze").final.execs = 0 ∧
    (reasonFull c9Env {} "analyze").final.core.cycleHistory.map (fun s => s.state) =
      [.planning] ∧
    dictGet (reasonFull c9Env {} "analyze").result "total_cycles" = some (.num 1) := by
  refine ⟨?_, ?_, ?_, ?_, ?_⟩ <;> with_unfolding_all rfl

/-- Environment for the C3 counterexample: the run completes at once and
the synthesis response parses to the single-field object `{"foo": 1}`. -/
def c3Env : Env :=
  { reasoning := fun n =>
      if n = 0 then
        "\x7b\"next_action\": null, \"task_complete\": true, \"confidence\": 0.9\x7d"
      else "\x7b\"foo\": 1\x7d"
    general := fun _ => "x"
    tools := []
    toonLoads := fun _ => none
    maxCycles := 15
    times := fun n => "T" ++ natToStr n
    ids := fun n => "U" ++ natToStr n
    pyRepr := fun _ => "" }

set_option maxRecDepth 8000 in
/-- C3 counterexample: with a parseable synthesis response of shape
`{"foo": 1}`, the returned dict's fields are
`foo, reasoning_trace, tool_results, total_cycles, actions_executed` —
`situation_summary`, `task_status` and the rest of the claimed exact field
set are absent, refuting "returns a result containing exactly the fields
... for every sequence of model responses". -/
theorem reason_result_shape_counterexample :
    dictKeys (reasonFull c3Env {} "analyze").result =
      ["foo", "reasoning_trace", "tool_results", "total_cycles", "actions_executed"] ∧
    hasKey (reasonFull c3Env {} "analyze").result "situation_summary" = false ∧
    hasKey (reasonFull c3Env {} "analyze").result "task_status" = false := by
  refine ⟨?_, ?_, ?_⟩ <;> with_unfolding_all rfl

set_option maxRecDepth 8000 in
/-- Witness for the amended C3 theorem: in the C9 run the synthesis parse
fails, and the theorem yields the exact nine-field shape. -/
theorem reason_result_shape_witness :
    dictKeys (reasonFull c9Env {} "analyze").result =
      ["situation_summary", "analysis", "recommendations", "confidence", "task_status",
       "reasoning_trace", "tool_results", "total_cycles", "actions_executed"] :=
  (reason_result_shape c9Env {} "analyze").2.2.2.2 (by with_unfolding_all rfl)
